import Mathlib

/-!
# Verification of the `linked_ring` buffer (src/src/lr.c, src/include/lr.h)

Shallow embedding of the linked-ring buffer library.  Pointers into the cell
arena are modelled as indices into a `List lr_cell`; a C `struct lr_cell *`
becomes `Option Nat` with `none` playing the role of `NULL`.  Machine loops
that are bounded by pointer comparisons are modelled by structural recursion
on the remaining distance; loops that chase `next` links are modelled with
fuel (`cells.length + 1` suffices for every terminating C execution), and an
exhausted fuel or a dereference of a `NULL`/out-of-range pointer - undefined
behaviour in the C - is modelled by an `Option.none` result for the whole
operation.
-/

set_option linter.unusedVariables false

/-- Result codes (`enum lr_result` in `include/lr.h`).
`LR_ERROR_INVALID_INDEX` is returned by `lr_read_at` in `src/lr.c` and checked
for by the tests, but its declaration is missing from the header in this
snapshot of the repository.  Modelled from the spec: the error code for an
indexed operation that targets past the sub-list's end; it is a member of the
closed result taxonomy, distinct from every other code. -/
inductive lr_result where
  | LR_OK
  | LR_ERROR_UNKNOWN
  | LR_ERROR_NOMEMORY
  | LR_ERROR_LOCK
  | LR_ERROR_UNLOCK
  | LR_ERROR_BUFFER_FULL
  | LR_ERROR_BUFFER_EMPTY
  | LR_ERROR_BUFFER_BUSY
  | LR_ERROR_INVALID_INDEX
deriving Repr, DecidableEq

open lr_result

/-- `struct lr_cell`: a payload and a link to another cell (`none` = `NULL`). -/
structure lr_cell where
  data : Nat
  next : Option Nat
deriving Repr, DecidableEq

/-- The all-zero cell, also used as the (never relevant) out-of-range default
of the total array accessor `cellAt`. -/
def lr_cell_zero : lr_cell := ⟨0, none⟩

/-- `struct linked_ring`.  `cells` is the backing array (its length is the
`size` field: the C caller contract is that the array has exactly `size`
entries).  The caller-supplied mutex (`lock`/`unlock` function pointers plus
opaque state) is modelled by `hasMutex` (are the function pointers non-NULL?)
together with `lockDepth`, the number of successful `lock` calls not yet
matched by an `unlock`; the modelled lock always succeeds. -/
structure linked_ring where
  cells : List lr_cell
  write : Option Nat
  owners : Option Nat
  hasMutex : Bool
  lockDepth : Nat
deriving Repr, DecidableEq

/-- The `size` field of the ring (= length of the backing array). -/
def linked_ring.size (lr : linked_ring) : Nat := lr.cells.length

/-- Total read of `cells[i]`. -/
def cellAt (cs : List lr_cell) (i : Nat) : lr_cell := cs.getD i lr_cell_zero

/-- Write `cells[i].next = nx` (out-of-range writes are dropped, as `List.set`
does; the C would fault there). -/
def setNext (cs : List lr_cell) (i : Nat) (nx : Option Nat) : List lr_cell :=
  cs.set i { cellAt cs i with next := nx }

/-- Write `cells[i].data = d`. -/
def setData (cs : List lr_cell) (i : Nat) (d : Nat) : List lr_cell :=
  cs.set i { cellAt cs i with data := d }

/-- Macro `lr_owners_count` from lr.h:
`owners == NULL ? 0 : cells + size - owners`. -/
def lr_owners_count (lr : linked_ring) : Nat :=
  match lr.owners with
  | none => 0
  | some o => lr.size - o

/-- Macro `lr_last_cell` from lr.h: `cells + size - 1`. -/
def lr_last_cell (lr : linked_ring) : Nat := lr.size - 1

/-- Macro `lr_owner_tail` from lr.h: `owner_cell->next`. -/
def lr_owner_tail (cs : List lr_cell) (owner_cell : Nat) : Option Nat :=
  (cellAt cs owner_cell).next

/-- The `lock(lr)` macro, with the modelled lock always returning `LR_OK`. -/
def lock (lr : linked_ring) : linked_ring :=
  if lr.hasMutex then { lr with lockDepth := lr.lockDepth + 1 } else lr

/-- The `unlock(lr)` macro. -/
def unlock (lr : linked_ring) : linked_ring :=
  if lr.hasMutex then { lr with lockDepth := lr.lockDepth - 1 } else lr

/-- `lr_init(lr, size, cells)`.  `cellsIsNull` models passing a `NULL` array;
`mem` is the caller's array (of exactly `size` entries, with arbitrary prior
contents - `malloc` memory).  The C chains `cells[idx].next = &cells[idx+1]`
for `idx < size - 1` only, leaving the last cell's `next` (and every `data`
field) untouched, sets `write = cells`, `owners = NULL` and clears the mutex
binding. -/
def lr_init (cellsIsNull : Bool) (mem : List lr_cell) :
    lr_result × Option linked_ring :=
  if cellsIsNull ∨ mem.length = 0 then (LR_ERROR_NOMEMORY, none)
  else
    (LR_OK, some
      { cells := (List.range mem.length).map fun i =>
          if i < mem.length - 1 then { cellAt mem i with next := some (i + 1) }
          else cellAt mem i,
        write := some 0,
        owners := none,
        hasMutex := false,
        lockDepth := 0 })

/-- `lr_set_mutex(lr, attr)` with non-NULL lock/unlock functions. -/
def lr_set_mutex (lr : linked_ring) : linked_ring := { lr with hasMutex := true }

/-- A freshly initialized ring over `n` zero-initialized cells
(`calloc`-style memory, so the last cell's `next` is `NULL`). -/
def freshRing (n : Nat) : linked_ring :=
  ((lr_init false (List.replicate n lr_cell_zero)).2).getD
    ⟨[], none, none, false, 0⟩

/-- The scan loop of `lr_owner_find`: walk owner cells from index `i` up to
the end of the array looking for `owner_cell->data == owner`. -/
def lr_owner_scan_go (cs : List lr_cell) (owner : Nat) :
    Nat → Nat → Option Nat
  | 0, _ => none
  | fuel + 1, i =>
    if i < cs.length then
      if (cellAt cs i).data = owner then some i
      else lr_owner_scan_go cs owner fuel (i + 1)
    else none

def lr_owner_scan (cs : List lr_cell) (owner : Nat) (i : Nat) : Option Nat :=
  lr_owner_scan_go cs owner (cs.length + 1 - i) i

/-- `lr_owner_find(lr, owner)`: linear scan over `[owners, cells+size)`. -/
def lr_owner_find (lr : linked_ring) (owner : Nat) : Option Nat :=
  match lr.owners with
  | none => none
  | some o => lr_owner_scan lr.cells owner o

/-- The bounded skip loop
`while (prev_owner->next == NULL && prev_owner < last_cell) prev_owner += 1`
(used by `lr_owner_head`, `lr_put`, `lr_push`, `lr_get`, `lr_pull`). -/
def lr_prev_walk_go (cs : List lr_cell) (last : Nat) : Nat → Nat → Nat
  | 0, i => i
  | fuel + 1, i =>
    if (cellAt cs i).next = none ∧ i < last then
      lr_prev_walk_go cs last fuel (i + 1)
    else i

def lr_prev_walk (cs : List lr_cell) (last i : Nat) : Nat :=
  lr_prev_walk_go cs last (last - i) i

/-- The unbounded skip loop `while (needle->next == NULL) needle += 1`
(used by `lr_owner_allocate`, `lr_pop`, `lr_insert`, `lr_count`, `lr_dump`).
Walking past the last cell reads out of bounds in the C: modelled as `none`. -/
def lr_prev_walk_ub_go (cs : List lr_cell) : Nat → Nat → Option Nat
  | 0, _ => none
  | fuel + 1, i =>
    if i < cs.length then
      if (cellAt cs i).next = none then lr_prev_walk_ub_go cs fuel (i + 1)
      else some i
    else none

def lr_prev_walk_ub (cs : List lr_cell) (i : Nat) : Option Nat :=
  lr_prev_walk_ub_go cs (cs.length + 1 - i) i

/-- `lr_owner_head(lr, owner_cell)`: find the head of an owner's sub-list via
the neighbouring owner record; returns the `head` pointer (possibly `NULL`).
The `owners == NULL` case inside the `owner_cell == last_cell` branch would
compute `NULL + 1` and dereference it in the C; it is unreachable from the
public API and modelled as a `NULL` result. -/
def lr_owner_head (lr : linked_ring) (owner_cell : Nat) : Option Nat :=
  let last := lr_last_cell lr
  if owner_cell = last then
    match lr.owners with
    | some ow =>
      match (cellAt lr.cells ow).next with
      | some t => (cellAt lr.cells t).next
      | none =>
        let p := lr_prev_walk lr.cells last (ow + 1)
        match (cellAt lr.cells p).next with
        | none => none
        | some t => (cellAt lr.cells t).next
    | none => none
  else
    let p := lr_prev_walk lr.cells last (owner_cell + 1)
    match (cellAt lr.cells p).next with
    | none => none
    | some t => (cellAt lr.cells t).next

/-- `lr_cell_swap(lr, cell)`: move the contents of `cell` into the cell at the
write position, advance `write`, and rewrite every `next` pointer in the whole
array that pointed at `cell` to point at the moved copy.  Returns the index of
the copy.  Dereferences `lr->write`, so a `NULL` write position faults. -/
def lr_cell_swap (lr : linked_ring) (cell : Nat) :
    Option (Nat × linked_ring) :=
  match lr.write with
  | none => none
  | some swap =>
    let write' := (cellAt lr.cells swap).next
    let cs1 := setData lr.cells swap (cellAt lr.cells cell).data
    let cs2 := setNext cs1 swap (cellAt lr.cells cell).next
    let cs3 := (List.range cs2.length).map fun i =>
      let c := cellAt cs2 i
      if c.next = some cell then { c with next := some swap } else c
    some (swap, { lr with cells := cs3, write := write' })

/-- The chase loop `while (needle->next != head && needle->next != cell)
needle = needle->next` shared verbatim by `lr_cell_lookup` and the free-pool
search of `lr_owner_allocate`.  Returns the needle on which the loop stopped;
a `NULL` link makes the C chase a `NULL` pointer on the following iteration. -/
def lr_lookup_walk (cs : List lr_cell) (head target : Nat) :
    Nat → Nat → Option Nat
  | 0, _ => none
  | fuel + 1, needle =>
    match (cellAt cs needle).next with
    | some nx =>
      if nx = head ∨ nx = target then some needle
      else lr_lookup_walk cs head target fuel nx
    | none => none

/-- `lr_cell_lookup(lr, head, cell)`: search the ring starting at `head` for a
cell whose `next` is `cell`; on success swap `cell` out via `lr_cell_swap` and
relink, returning `cell`; otherwise return `NULL` with the ring untouched. -/
def lr_cell_lookup (lr : linked_ring) (head cell : Nat) :
    Option (Option Nat × linked_ring) :=
  match lr_lookup_walk lr.cells head cell (lr.cells.length + 1) head with
  | none => none
  | some needle =>
    if (cellAt lr.cells needle).next = some cell then
      match lr_cell_swap lr cell with
      | none => none
      | some (swap, lr1) =>
        some (some cell, { lr1 with cells := setNext lr1.cells needle (some swap) })
    else some (none, lr)

/-- The free-pool part of `lr_owner_allocate`: if the wanted slot is the write
position take it directly, otherwise search the free chain for it and unlink
it. -/
def lr_owner_allocate_free (lr : linked_ring) (owner_cell : Nat) :
    Option (Option Nat × linked_ring) :=
  if lr.write = some owner_cell then
    some (some owner_cell,
      { lr with write := (cellAt lr.cells owner_cell).next })
  else
    match lr.write with
    | none => none
    | some head =>
      match lr_lookup_walk lr.cells head owner_cell (lr.cells.length + 1) head with
      | none => none
      | some needle =>
        if (cellAt lr.cells needle).next = some owner_cell then
          some (some owner_cell,
            { lr with cells :=
                setNext lr.cells needle ((cellAt lr.cells owner_cell).next) })
        else some (none, lr)

/-- `lr_owner_allocate(lr)`: reserve the cell at `cells[size - owners_nr - 1]`
for a new owner record, evicting a resident data cell via `lr_cell_lookup`
when the slot is occupied, else unlinking the slot from the free pool. -/
def lr_owner_allocate (lr : linked_ring) : Option (Option Nat × linked_ring) :=
  let owners_nr := lr_owners_count lr
  let owner_cell := lr.size - owners_nr - 1
  match lr.owners with
  | some ow =>
    match lr_prev_walk_ub lr.cells ow with
    | none => none
    | some needle0 =>
      match (cellAt lr.cells needle0).next with
      | none => none
      | some hd =>
        match lr_cell_lookup lr hd owner_cell with
        | none => none
        | some (some found, lr1) => some (some found, lr1)
        | some (none, lr1) => lr_owner_allocate_free lr1 owner_cell
  | none => lr_owner_allocate_free lr owner_cell

/-- `lr_owner_get(lr, owner)`: find the owner record, or - when the free pool
still has at least two cells - allocate a fresh one with `data = owner`,
`next = NULL`, updating `lr->owners`.  A `NULL` from the allocator makes the C
write through `NULL` (fault). -/
def lr_owner_get (lr : linked_ring) (owner : Nat) :
    Option (Option Nat × linked_ring) :=
  match lr_owner_find lr owner with
  | some oc => some (some oc, lr)
  | none =>
    match lr.write with
    | none => none
    | some w =>
      if (cellAt lr.cells w).next = none then some (none, lr)
      else
        match lr_owner_allocate lr with
        | none => none
        | some (none, _) => none
        | some (some oc, lr1) =>
          some (some oc,
            { lr1 with cells := setNext (setData lr1.cells oc owner) oc none,
                       owners := some oc })

/-- `lr_put(lr, data, owner)`: add an element for `owner`, taking the cell at
the write position, splicing it after the owner's current tail (or
bootstrapping the ring for a new owner), and finally pointing the owner
record's `next` at the new cell.  (The C's `lr == NULL` guard has no
counterpart: states are values here.) -/
def lr_put (lr0 : linked_ring) (data owner : Nat) :
    Option (lr_result × linked_ring) :=
  let lr := lock lr0
  match lr.write with
  | none => some (LR_ERROR_BUFFER_FULL, unlock lr)
  | some _ =>
    match lr_owner_get lr owner with
    | none => none
    | some (none, lr1) => some (LR_ERROR_BUFFER_FULL, unlock lr1)
    | some (some oc, lr1) =>
      let tail := lr_owner_tail lr1.cells oc
      match lr1.write with
      | none => none
      | some cell =>
        let lr2 := { lr1 with write := (cellAt lr1.cells cell).next }
        let cs0 := setData lr2.cells cell data
        let cs1 :=
          match tail with
          | some t => setNext (setNext cs0 cell ((cellAt cs0 t).next)) t (some cell)
          | none =>
            if oc < lr_last_cell lr2 then
              let p := lr_prev_walk cs0 (lr_last_cell lr2) (oc + 1)
              match (cellAt cs0 p).next with
              | some pt =>
                let chain := (cellAt cs0 pt).next
                setNext (setNext cs0 cell chain) pt (some cell)
              | none => setNext cs0 cell (some cell)
            else setNext cs0 cell (some cell)
        some (LR_OK, unlock { lr2 with cells := setNext cs1 oc (some cell) })

/-- `lr_push(lr, data, owner)`: add an element to the tail for `owner`.  The C
body performs exactly the same steps as `lr_put` (take the write cell, splice
after the current tail or bootstrap a new owner's ring, then set the owner
record's `next` to the new cell). -/
def lr_push (lr0 : linked_ring) (data owner : Nat) :
    Option (lr_result × linked_ring) :=
  let lr := lock lr0
  match lr.write with
  | none => some (LR_ERROR_BUFFER_FULL, unlock lr)
  | some _ =>
    match lr_owner_get lr owner with
    | none => none
    | some (none, lr1) => some (LR_ERROR_BUFFER_FULL, unlock lr1)
    | some (some oc, lr1) =>
      let tail := lr_owner_tail lr1.cells oc
      match lr1.write with
      | none => none
      | some cell =>
        let lr2 := { lr1 with write := (cellAt lr1.cells cell).next }
        let cs0 := setData lr2.cells cell data
        let cs1 :=
          match tail with
          | some t => setNext (setNext cs0 cell ((cellAt cs0 t).next)) t (some cell)
          | none =>
            if oc < lr_last_cell lr2 then
              let p := lr_prev_walk cs0 (lr_last_cell lr2) (oc + 1)
              match (cellAt cs0 p).next with
              | some pt =>
                let chain := (cellAt cs0 pt).next
                setNext (setNext cs0 cell chain) pt (some cell)
              | none => setNext cs0 cell (some cell)
            else setNext cs0 cell (some cell)
        some (LR_OK, unlock { lr2 with cells := setNext cs1 oc (some cell) })

/-- `lr_put_string(lr, data, owner)`: `lr_put` every byte until the
terminator (the end of the modelled byte list, or an embedded zero byte);
stop early with `LR_ERROR_BUFFER_FULL` if a put reports a full buffer (any
other failure code is ignored by the C loop). -/
def lr_put_string (lr : linked_ring) (s : List Nat) (owner : Nat) :
    Option (lr_result × linked_ring) :=
  match s with
  | [] => some (LR_OK, lr)
  | b :: rest =>
    if b = 0 then some (LR_OK, lr)
    else
      match lr_put lr b owner with
      | none => none
      | some (r, lr1) =>
        if r = LR_ERROR_BUFFER_FULL then some (LR_ERROR_BUFFER_FULL, lr1)
        else lr_put_string lr1 rest owner

/-- The compaction loop shared by the removal operations:
`for (owner_swap = owner_cell; owner_swap > lr->owners; owner_swap--)
*owner_swap = *(owner_swap - 1)` - every record strictly between `ow`
(exclusive) and `oc` (inclusive) receives the value of its lower neighbour
(the descending order means every source is an original value). -/
def lr_owner_shift (cs : List lr_cell) (ow oc : Nat) : List lr_cell :=
  (List.range cs.length).map fun p =>
    if ow < p ∧ p ≤ oc then cellAt cs (p - 1) else cellAt cs p

/-- `lr_get(lr, data, owner)`: remove and return the head element of
`owner`'s sub-list; when it was the owner's last element, also release the
owner record (compacting the registry) onto the free list.  The freed head
cell is pushed on the free list and its payload zeroed. -/
def lr_get (lr0 : linked_ring) (owner : Nat) :
    Option (lr_result × Option Nat × linked_ring) :=
  let lr := lock lr0
  match lr.owners with
  | none => some (LR_ERROR_BUFFER_EMPTY, none, unlock lr)
  | some ow =>
    match lr_owner_scan lr.cells owner ow with
    | none => some (LR_ERROR_BUFFER_EMPTY, none, unlock lr)
    | some oc =>
      let last := lr_last_cell lr
      let p0 := if oc = last then ow else oc + 1
      let p := lr_prev_walk lr.cells last p0
      match (cellAt lr.cells p).next with
      | none => some (LR_ERROR_BUFFER_EMPTY, none, unlock lr)
      | some t0 =>
        match (cellAt lr.cells t0).next with
        | none => none
        | some head =>
          let cs1 := setNext lr.cells t0 ((cellAt lr.cells head).next)
          let v := (cellAt cs1 head).data
          let tail := lr_owner_tail cs1 oc
          if some head = tail then
            let cs2 := lr_owner_shift cs1 ow oc
            let cs3 :=
              match lr.write with
              | none => setNext cs2 ow none
              | some w => setNext cs2 ow (some w)
            let owners' := if ow = last then none else some (ow + 1)
            let cs4 := setData (setNext cs3 head (some ow)) head 0
            some (LR_OK, some v,
              unlock { lr with cells := cs4, write := some head, owners := owners' })
          else
            let cs4 := setData (setNext cs1 head lr.write) head 0
            some (LR_OK, some v,
              unlock { lr with cells := cs4, write := some head })

/-- The predecessor-hunting loop of `lr_pop`:
`while (needle != tail) { if (needle->next == tail) { owner_cell->next =
needle; needle->next = tail->next; needle = tail; } else needle =
needle->next; }` - returns the mutated cell array. -/
def lr_pop_walk (cs : List lr_cell) (oc tail : Nat) :
    Nat → Nat → Option (List lr_cell)
  | 0, _ => none
  | fuel + 1, needle =>
    if needle = tail then some cs
    else
      match (cellAt cs needle).next with
      | some nx =>
        if nx = tail then
          let cs1 := setNext cs oc (some needle)
          some (setNext cs1 needle ((cellAt cs1 tail).next))
        else lr_pop_walk cs oc tail fuel nx
      | none => none

/-- `lr_pop(lr, data, owner)`: remove and return the tail element.  Note the
C's owner-not-found path returns `LR_ERROR_BUFFER_EMPTY` *without* running the
`unlock` macro (a bare `return`), so the lock depth stays raised there. -/
def lr_pop (lr0 : linked_ring) (owner : Nat) :
    Option (lr_result × Option Nat × linked_ring) :=
  let lr := lock lr0
  match lr.owners with
  | none => some (LR_ERROR_BUFFER_EMPTY, none, lr)
  | some ow =>
    match lr_owner_scan lr.cells owner ow with
    | none => some (LR_ERROR_BUFFER_EMPTY, none, lr)
    | some oc =>
      let last := lr_last_cell lr
      let p0 := if oc = last then ow else oc + 1
      match lr_prev_walk_ub lr.cells p0 with
      | none => none
      | some p =>
        match (cellAt lr.cells p).next with
        | none => none
        | some t0 =>
          let head? := (cellAt lr.cells t0).next
          match lr_owner_tail lr.cells oc with
          | none => none
          | some tail =>
            let v := (cellAt lr.cells tail).data
            let step1 : Option (List lr_cell × Option Nat × Option Nat) :=
              if head? = some tail then
                let cs2 := lr_owner_shift lr.cells ow oc
                let fix : Option (List lr_cell) :=
                  if p ≠ oc then
                    match (cellAt cs2 p).next with
                    | none => none
                    | some pt => some (setNext cs2 pt ((cellAt cs2 tail).next))
                  else some cs2
                match fix with
                | none => none
                | some cs3 =>
                  let cs4 := setNext cs3 ow lr.write
                  let owners' := if ow = last then none else some (ow + 1)
                  some (cs4, some ow, owners')
              else some (lr.cells, lr.write, lr.owners)
            match step1 with
            | none => none
            | some (csA, wA, ownersA) =>
              match head? with
              | none => none
              | some head =>
                match lr_pop_walk csA oc tail (csA.length + 1) head with
                | none => none
                | some csB =>
                  let csC := setNext csB tail wA
                  some (LR_OK, some v,
                    unlock { lr with cells := csC, write := some tail,
                                     owners := ownersA })

/-- The index-hunting loop of `lr_pull`:
`while (needle_index < index - 1 && needle->next != tail && needle->next !=
head) { needle = needle->next; needle_index++; }` - returns the final needle
together with the number of steps still owed (`0` iff `needle_index` reached
`index - 1`). -/
def lr_pull_walk (cs : List lr_cell) (tail head : Nat) :
    Nat → Nat → Option (Nat × Nat)
  | needle, 0 => some (needle, 0)
  | needle, rem + 1 =>
    match (cellAt cs needle).next with
    | some nx =>
      if nx = tail ∨ nx = head then some (needle, rem + 1)
      else lr_pull_walk cs tail head nx rem
    | none => none

/-- `lr_pull(lr, data, owner, index)`: remove and return the element at
`index` of `owner`'s sub-list.  Index `0` removes the head (releasing the
owner when it was the only element); a positive index walks to the
predecessor and splices the successor out; when the walk stops early the C
returns `LR_ERROR_BUFFER_EMPTY` (not the invalid-index code). -/
def lr_pull (lr0 : linked_ring) (owner index : Nat) :
    Option (lr_result × Option Nat × linked_ring) :=
  let lr := lock lr0
  match lr.owners with
  | none => some (LR_ERROR_BUFFER_EMPTY, none, unlock lr)
  | some ow =>
    match lr_owner_scan lr.cells owner ow with
    | none => some (LR_ERROR_BUFFER_EMPTY, none, unlock lr)
    | some oc =>
      let last := lr_last_cell lr
      let p0 := if oc = last then ow else oc + 1
      let p := lr_prev_walk lr.cells last p0
      match (cellAt lr.cells p).next with
      | none => some (LR_ERROR_BUFFER_EMPTY, none, unlock lr)
      | some t0 =>
        match (cellAt lr.cells t0).next, lr_owner_tail lr.cells oc with
        | none, _ => some (LR_ERROR_BUFFER_EMPTY, none, unlock lr)
        | some _, none => some (LR_ERROR_BUFFER_EMPTY, none, unlock lr)
        | some head, some tail =>
          if head = tail then
            if index = 0 then
              let v := (cellAt lr.cells head).data
              let cs2 := lr_owner_shift lr.cells ow oc
              let cs3 :=
                if p ≠ oc ∧ (cellAt cs2 p).next ≠ none then
                  match (cellAt cs2 p).next with
                  | some pt => setNext cs2 pt ((cellAt cs2 tail).next)
                  | none => cs2
                else cs2
              let cs4 :=
                match lr.write with
                | none => cs3
                | some w => setNext cs3 ow (some w)
              let owners' := if ow = last then none else some (ow + 1)
              let cs5 := setNext cs4 head (some ow)
              some (LR_OK, some v,
                unlock { lr with cells := cs5, write := some head,
                                 owners := owners' })
            else some (LR_ERROR_BUFFER_EMPTY, none, unlock lr)
          else
            if index = 0 then
              let v := (cellAt lr.cells head).data
              let cs1 := setNext lr.cells t0 ((cellAt lr.cells head).next)
              let cs2 := if head = tail then setNext cs1 oc none else cs1
              let cs3 := setNext cs2 head lr.write
              some (LR_OK, some v,
                unlock { lr with cells := cs3, write := some head })
            else
              match lr_pull_walk lr.cells tail head head (index - 1) with
              | none => none
              | some (needle, rem) =>
                if 0 < rem then some (LR_ERROR_BUFFER_EMPTY, none, unlock lr)
                else
                  match (cellAt lr.cells needle).next with
                  | none => none
                  | some selected =>
                    let v := (cellAt lr.cells selected).data
                    let cs1 :=
                      setNext lr.cells needle ((cellAt lr.cells selected).next)
                    let cs2 :=
                      if selected = tail then setNext cs1 oc (some needle)
                      else cs1
                    let cs3 := setNext cs2 selected lr.write
                    some (LR_OK, some v,
                      unlock { lr with cells := cs3, write := some selected })

/-- The traversal loop of `lr_read_at`: take `index` steps from the head,
failing with the invalid-index marker (`some none`) if the tail is reached
first; a `NULL` link faults in the C. -/
def lr_index_walk (cs : List lr_cell) (tail : Nat) :
    Nat → Nat → Option (Option Nat)
  | needle, 0 => some (some ((cellAt cs needle).data))
  | needle, cnt + 1 =>
    if needle = tail then some none
    else
      match (cellAt cs needle).next with
      | some nx => lr_index_walk cs tail nx cnt
      | none => none

/-- `lr_read_at(lr, data, owner, index)`: peek at the element at `index`
without removing it. -/
def lr_read_at (lr0 : linked_ring) (owner index : Nat) :
    Option (lr_result × Option Nat × linked_ring) :=
  let lr := lock lr0
  match lr.owners with
  | none => some (LR_ERROR_BUFFER_EMPTY, none, unlock lr)
  | some ow =>
    match lr_owner_scan lr.cells owner ow with
    | none => some (LR_ERROR_BUFFER_EMPTY, none, unlock lr)
    | some oc =>
      match lr_owner_head lr oc, lr_owner_tail lr.cells oc with
      | none, _ => some (LR_ERROR_BUFFER_EMPTY, none, unlock lr)
      | some _, none => some (LR_ERROR_BUFFER_EMPTY, none, unlock lr)
      | some head, some tail =>
        match lr_index_walk lr.cells tail head index with
        | none => none
        | some none => some (LR_ERROR_INVALID_INDEX, none, unlock lr)
        | some (some v) => some (LR_OK, some v, unlock lr)

/-- `lr_read(lr, data, owner)` = `lr_read_at(lr, data, owner, 0)`. -/
def lr_read (lr0 : linked_ring) (owner : Nat) :
    Option (lr_result × Option Nat × linked_ring) :=
  lr_read_at lr0 owner 0

/-- The do-while of `lr_read_string`: emit `needle->data`, advance, stop when
the needle equals `tail->next` (`stop`). -/
def lr_string_walk (cs : List lr_cell) (stop : Option Nat) :
    Nat → Nat → List Nat → Option (List Nat)
  | 0, _, _ => none
  | fuel + 1, needle, acc =>
    let acc' := acc ++ [(cellAt cs needle).data]
    if (cellAt cs needle).next = stop then some acc'
    else
      match (cellAt cs needle).next with
      | some nx => lr_string_walk cs stop fuel nx acc'
      | none => none

/-- `lr_read_string(lr, data, length, owner)`: copy every payload of the
owner's sub-list into the output buffer, append a zero terminator and report
the byte count.  The result carries the bytes written (terminator included)
and the final `*length`.  A single-element sub-list holding `0` writes only
the terminator with `*length = 0`. -/
def lr_read_string (lr0 : linked_ring) (owner : Nat) :
    Option (lr_result × List Nat × Nat × linked_ring) :=
  let lr := lock lr0
  match lr.owners with
  | none => some (LR_ERROR_BUFFER_EMPTY, [], 0, unlock lr)
  | some ow =>
    match lr_owner_scan lr.cells owner ow with
    | none => some (LR_ERROR_BUFFER_EMPTY, [], 0, unlock lr)
    | some oc =>
      let needle? := lr_owner_head lr oc
      match lr_owner_tail lr.cells oc with
      | none => none
      | some tail =>
        if needle? = some tail ∧ (cellAt lr.cells tail).data = 0 then
          some (LR_OK, [0], 0, unlock lr)
        else
          match needle? with
          | none => none
          | some needle =>
            match lr_string_walk lr.cells ((cellAt lr.cells tail).next)
                (lr.cells.length + 1) needle [] with
            | none => none
            | some out => some (LR_OK, out ++ [0], out.length, unlock lr)

/-- The counting loop of `lr_count_limited_owned`:
`while (needle != tail && (limit == 0 || length < limit))`.  The needle is an
`Option` because the head pointer itself may be `NULL` (compared against the
tail pointer like any other pointer); advancing dereferences it. -/
def lr_count_walk (cs : List lr_cell) (tail : Option Nat) (limit : Nat) :
    Nat → Option Nat → Nat → Option Nat
  | 0, _, _ => none
  | fuel + 1, needle, length =>
    if needle ≠ tail ∧ (limit = 0 ∨ length < limit) then
      match needle with
      | some i => lr_count_walk cs tail limit fuel (cellAt cs i).next (length + 1)
      | none => none
    else some length

/-- `lr_count_limited_owned(lr, limit, owner)`: length of the owner's
sub-list, cut off at `limit` when `limit > 0`; `0` when the owner has no
record. -/
def lr_count_limited_owned (lr0 : linked_ring) (limit owner : Nat) :
    Option (Nat × linked_ring) :=
  let lr := lock lr0
  match lr.owners with
  | none => some (0, unlock lr)
  | some ow =>
    match lr_owner_scan lr.cells owner ow with
    | none => some (0, unlock lr)
    | some oc =>
      let head? := lr_owner_head lr oc
      let tail? := lr_owner_tail lr.cells oc
      match lr_count_walk lr.cells tail? limit (lr.cells.length + 1) head? 1 with
      | none => none
      | some len => some (len, unlock lr)

/-- Macro `lr_count_owned` from lr.h: `lr_count_limited_owned(lr, 0, owner)`. -/
def lr_count_owned (lr : linked_ring) (owner : Nat) : Option (Nat × linked_ring) :=
  lr_count_limited_owned lr 0 owner

/-- The ring-walking loop of `lr_count`:
`while (needle->next != head) { needle = needle->next; length += 1; }`. -/
def lr_count_ring (cs : List lr_cell) (head : Nat) :
    Nat → Nat → Nat → Option Nat
  | 0, _, _ => none
  | fuel + 1, needle, length =>
    match (cellAt cs needle).next with
    | some nx =>
      if nx = head then some length
      else lr_count_ring cs head fuel nx (length + 1)
    | none => none

/-- `lr_count(lr)`: total number of data cells, obtained by walking the
global ring once around from the first owner that has a tail. -/
def lr_count (lr0 : linked_ring) : Option (Nat × linked_ring) :=
  let lr := lock lr0
  match lr.owners with
  | none => some (0, unlock lr)
  | some ow =>
    match lr_prev_walk_ub lr.cells ow with
    | none => none
    | some oc =>
      match (cellAt lr.cells oc).next with
      | none => none
      | some t =>
        match (cellAt lr.cells t).next with
        | none => none
        | some head =>
          match lr_count_ring lr.cells head (lr.cells.length + 1) head 1 with
          | none => none
          | some len => some (len, unlock lr)

/-- Macro `lr_available` from lr.h:
`size - lr_count(lr) - lr_owners_count(lr)`. -/
def lr_available (lr : linked_ring) : Option Nat :=
  match lr_count lr with
  | none => none
  | some (c, _) => some (lr.size - c - lr_owners_count lr)

/-- The C computes `(size_t)(lr_needle->next - lr->cells)` during resize; a
`NULL` `next` makes that subtraction undefined.  `ub` is the unspecified
value the C would produce there. -/
def lr_ptr_sub (nx : Option Nat) (ub : Nat) : Nat :=
  match nx with
  | some p => p
  | none => ub

/-- `lr_resize(lr, size, cells)`: copy the first `size - owners_nr` cells of
the old array (offset-rewriting the links), copy the owner records to the top
of the new array, point `write` at index `data_nr - 1` and re-chain the
region from there up to the new owner boundary as the free list (no
re-chaining happens when there are no owners, since the loop bound is then
the `NULL` `owners` pointer).  `ub` stands for the unspecified offset the C
computes for a `NULL` link (see `lr_ptr_sub`); `data_nr = 0` would make
`write` the invalid pointer `cells - 1`, modelled as a fault. -/
def lr_resize (lr : linked_ring) (cellsIsNull : Bool) (mem : List lr_cell)
    (ub : Nat) : Option (lr_result × linked_ring) :=
  if cellsIsNull ∨ mem.length = 0 then some (LR_ERROR_NOMEMORY, lr)
  else
    let m := mem.length
    let owner_nr := lr_owners_count lr
    let data_nr := lr.size - owner_nr
    if data_nr = 0 then none
    else
      let oldC := lr.cells
      let cs : List lr_cell := (List.range m).map fun i =>
        if 0 < owner_nr ∧ m - owner_nr ≤ i then
          let oi := (lr.size - owner_nr) + (i - (m - owner_nr))
          { data := (cellAt oldC oi).data,
            next := some (lr_ptr_sub (cellAt oldC oi).next ub) }
        else if 0 < owner_nr ∧ data_nr - 1 ≤ i ∧ i < m - owner_nr then
          { data := if i < data_nr then (cellAt oldC i).data
                    else (cellAt mem i).data,
            next := if i = m - owner_nr - 1 then none else some (i + 1) }
        else if i < data_nr then
          { data := (cellAt oldC i).data,
            next := some (lr_ptr_sub (cellAt oldC i).next ub) }
        else cellAt mem i
      let owners' : Option Nat :=
        if 0 < owner_nr then some (m - owner_nr) else none
      some (LR_OK,
        { lr with cells := cs, write := some (data_nr - 1), owners := owners' })

/-- `lr_insert_next(lr, data, needle)`: splice a new cell carrying `data`
directly after `needle`. -/
def lr_insert_next (lr0 : linked_ring) (data needle : Nat) :
    Option (lr_result × linked_ring) :=
  let lr := lock lr0
  match lr.write with
  | none => some (LR_ERROR_BUFFER_FULL, unlock lr)
  | some cell =>
    let lr2 := { lr with write := (cellAt lr.cells cell).next }
    let cs0 := setData lr2.cells cell data
    let cs1 := setNext cs0 cell ((cellAt cs0 needle).next)
    let cs2 := setNext cs1 needle (some cell)
    some (LR_OK, unlock { lr2 with cells := cs2 })

/-- The position loop of `lr_insert`: `cell_index = 1; while (cell_index !=
index && needle != tail) { needle = needle->next; cell_index++; }` - take at
most `index - 1` steps, stopping early at the tail. -/
def lr_insert_walk (cs : List lr_cell) (tail : Nat) :
    Nat → Nat → Option Nat
  | needle, 0 => some needle
  | needle, rem + 1 =>
    if needle = tail then some needle
    else
      match (cellAt cs needle).next with
      | some nx => lr_insert_walk cs tail nx rem
      | none => none

/-- `lr_insert(lr, data, owner, index)`: insert at position `index` of the
owner's sub-list (index `0` = new head, positions past the end land at the
tail).  An owner without a tail defers to `lr_put` after unlocking.  The
`while (prev_owner->next == NULL) prev_owner += 1` walk is unbounded in the C
and can run off the array (e.g. when the freshly created owner is the only
one); that is modelled as a fault. -/
def lr_insert (lr0 : linked_ring) (data owner index : Nat) :
    Option (lr_result × linked_ring) :=
  let lr := lock lr0
  match lr.write with
  | none => some (LR_ERROR_BUFFER_FULL, unlock lr)
  | some _ =>
    match lr_owner_get lr owner with
    | none => none
    | some (none, lr1) => some (LR_ERROR_BUFFER_FULL, unlock lr1)
    | some (some oc, lr1) =>
      let last := lr_last_cell lr1
      let p0 := if oc = last then
        (match lr1.owners with | some ow => ow | none => 0) else oc + 1
      match lr_prev_walk_ub lr1.cells p0 with
      | none => none
      | some p =>
        match (cellAt lr1.cells p).next with
        | none => none
        | some t0 =>
          let head := (cellAt lr1.cells t0).next
          match lr_owner_tail lr1.cells oc with
          | none => lr_put (unlock lr1) data owner
          | some tail =>
            match lr1.write with
            | none => none
            | some cell =>
              let lr2 := { lr1 with write := (cellAt lr1.cells cell).next }
              let cs0 := setData lr2.cells cell data
              if index = 0 then
                let cs1 := setNext cs0 cell head
                let cs2 := setNext cs1 t0 (some cell)
                some (LR_OK, unlock { lr2 with cells := cs2 })
              else
                match head with
                | none => none
                | some hd =>
                  match lr_insert_walk cs0 tail hd (index - 1) with
                  | none => none
                  | some needle =>
                    let cs1 :=
                      if needle = tail then setNext cs0 oc (some cell) else cs0
                    let cs2 := setNext cs1 cell ((cellAt cs1 needle).next)
                    let cs3 := setNext cs2 needle (some cell)
                    some (LR_OK, unlock { lr2 with cells := cs3 })

/-! ## Canonical single-owner states

`mkPop n O vs m` is the arena of size `n` holding owner `O`'s record at index
`n - 1` and the live values `vs.take m` in cells `0, …, m - 1` (an ascending
ring), the remaining non-owner cells `m, …, n - 2` forming the ascending free
chain.  It is the state reached from a fresh arena by putting `vs` and then
popping down to `m` elements (popped cells keep their old payloads, hence the
`vs.getD` in the free region).  `mkGet n O vs j` is the state after `j`
`lr_get`s instead: live cells `j, …, k - 1`, the freed cells zeroed and
chained `j-1 → … → 0` ahead of the untouched tail `k, …, n - 2` of the free
chain. -/

def mkPopCell (n O : Nat) (vs : List Nat) (m : Nat) (i : Nat) : lr_cell :=
  if i < m then
    { data := vs.getD i 0, next := some (if i = m - 1 then 0 else i + 1) }
  else if i = n - 1 then { data := O, next := some (m - 1) }
  else { data := vs.getD i 0, next := if i = n - 2 then none else some (i + 1) }

def mkPop (n O : Nat) (vs : List Nat) (m : Nat) : linked_ring :=
  { cells := (List.range n).map (mkPopCell n O vs m),
    write := if m < n - 1 then some m else none,
    owners := some (n - 1),
    hasMutex := false,
    lockDepth := 0 }

def mkGetCell (n O : Nat) (vs : List Nat) (j : Nat) (i : Nat) : lr_cell :=
  if i < j then
    { data := 0,
      next := if i = 0 then (if vs.length < n - 1 then some vs.length else none)
              else some (i - 1) }
  else if i < vs.length then
    { data := vs.getD i 0, next := some (if i = vs.length - 1 then j else i + 1) }
  else if i = n - 1 then { data := O, next := some (vs.length - 1) }
  else { data := 0, next := if i = n - 2 then none else some (i + 1) }

def mkGet (n O : Nat) (vs : List Nat) (j : Nat) : linked_ring :=
  { cells := (List.range n).map (mkGetCell n O vs j),
    write := if 1 ≤ j then some (j - 1)
             else if vs.length < n - 1 then some vs.length else none,
    owners := some (n - 1),
    hasMutex := false,
    lockDepth := 0 }

/-- The state after the last `lr_get` drains owner `O`: the owner record has
been released and compacted away, the record cell and the last head pushed on
the free list. -/
def mkGetDrainedCell (n O : Nat) (vs : List Nat) (i : Nat) : lr_cell :=
  let k := vs.length
  if i < k - 1 then
    { data := 0,
      next := if i = 0 then (if k < n - 1 then some k else none)
              else some (i - 1) }
  else if i = k - 1 then { data := 0, next := some (n - 1) }
  else if i = n - 1 then
    { data := O,
      next := if 2 ≤ k then some (k - 2)
              else if k < n - 1 then some k else none }
  else { data := 0, next := if i = n - 2 then none else some (i + 1) }

def mkGetDrained (n O : Nat) (vs : List Nat) : linked_ring :=
  { cells := (List.range n).map (mkGetDrainedCell n O vs),
    write := some (vs.length - 1),
    owners := none,
    hasMutex := false,
    lockDepth := 0 }

/-- The state after the last `lr_pop` drains owner `O` (pops do not zero the
freed payloads). -/
def mkPopDrainedCell (n O : Nat) (vs : List Nat) (i : Nat) : lr_cell :=
  if i = 0 then { data := vs.getD 0 0, next := some (n - 1) }
  else if i = n - 1 then
    { data := O, next := if 1 < n - 1 then some 1 else none }
  else { data := vs.getD i 0, next := if i = n - 2 then none else some (i + 1) }

def mkPopDrained (n O : Nat) (vs : List Nat) : linked_ring :=
  { cells := (List.range n).map (mkPopDrainedCell n O vs),
    write := some 0,
    owners := none,
    hasMutex := false,
    lockDepth := 0 }

/-! ## Iterated operations -/

/-- `lr_put` each value of `vs` in turn, requiring every put to report
`LR_OK`. -/
def lr_put_iter (owner : Nat) : List Nat → linked_ring → Option linked_ring
  | [], s => some s
  | v :: rest, s =>
    match lr_put s v owner with
    | some (LR_OK, s') => lr_put_iter owner rest s'
    | _ => none

/-- `lr_push` each value of `vs` in turn, requiring every push to report
`LR_OK`. -/
def lr_push_iter (owner : Nat) : List Nat → linked_ring → Option linked_ring
  | [], s => some s
  | v :: rest, s =>
    match lr_push s v owner with
    | some (LR_OK, s') => lr_push_iter owner rest s'
    | _ => none

/-- Apply `lr_get` `count` times, collecting the returned values. -/
def lr_get_iter (owner : Nat) : Nat → linked_ring → Option (List Nat × linked_ring)
  | 0, s => some ([], s)
  | c + 1, s =>
    match lr_get s owner with
    | some (LR_OK, some v, s') =>
      match lr_get_iter owner c s' with
      | some (l, s'') => some (v :: l, s'')
      | none => none
    | _ => none

/-- Apply `lr_pop` `count` times, collecting the returned values. -/
def lr_pop_iter (owner : Nat) : Nat → linked_ring → Option (List Nat × linked_ring)
  | 0, s => some ([], s)
  | c + 1, s =>
    match lr_pop s owner with
    | some (LR_OK, some v, s') =>
      match lr_pop_iter owner c s' with
      | some (l, s'') => some (v :: l, s'')
      | none => none
    | _ => none

/-- The state `lr_resize` builds from the single-owner family when at least
one free cell exists and the new array is no smaller than the old one: the
live ring and the copied free cells sit at their old indices, the stretch
from the old free area through the new cells is chained ascending into a
free list ending in `NULL`, and the owner record moves to the top of the new
array. -/
def mkResizedCell (n O : Nat) (vs : List Nat) (m : Nat) (mem : List lr_cell)
    (i : Nat) : lr_cell :=
  if i < m then
    { data := vs.getD i 0, next := some (if i = m - 1 then 0 else i + 1) }
  else if i = mem.length - 1 then { data := O, next := some (m - 1) }
  else if i ≤ n - 2 then
    { data := vs.getD i 0,
      next := if i = mem.length - 2 then none else some (i + 1) }
  else
    { data := (cellAt mem i).data,
      next := if i = mem.length - 2 then none else some (i + 1) }

def mkResized (n O : Nat) (vs : List Nat) (m : Nat) (mem : List lr_cell) :
    linked_ring :=
  { cells := (List.range mem.length).map (mkResizedCell n O vs m mem),
    write := some (n - 2),
    owners := some (mem.length - 1),
    hasMutex := false,
    lockDepth := 0 }

/-! ## The spec's conservation measure

The specification's invariant counts three disjoint cell populations.  The
counters below formalize the spec's wording (they are measuring devices for
stating the invariant, not translations of library code): the free count
walks the `NULL`-terminated chain rooted at `write`, the data count sums the
head-to-tail sub-list lengths over all owner records, and the owner count is
the `lr_owners_count` macro.  A walk that cycles or runs off the arena yields
`none`. -/

/-- Length of the `NULL`-terminated free chain rooted at `w` (`none` when the
chain does not terminate within `fuel` steps, e.g. because it cycles). -/
def spec_free_len (cs : List lr_cell) : Nat → Option Nat → Option Nat
  | 0, _ => none
  | _ + 1, none => some 0
  | fuel + 1, some i =>
    match spec_free_len cs fuel (cellAt cs i).next with
    | some k => some (k + 1)
    | none => none

/-- Number of cells on the `next`-path from `h` to `t` inclusive. -/
def spec_sub_walk (cs : List lr_cell) (t : Nat) : Nat → Nat → Option Nat
  | 0, _ => none
  | fuel + 1, h =>
    if h = t then some 1
    else
      match (cellAt cs h).next with
      | some nx => (spec_sub_walk cs t fuel nx).map (· + 1)
      | none => none

/-- Length of the sub-list of the owner record at `oc` (its head to its
tail). -/
def spec_owner_len (lr : linked_ring) (oc : Nat) : Option Nat :=
  match lr_owner_head lr oc, lr_owner_tail lr.cells oc with
  | some h, some t => spec_sub_walk lr.cells t (lr.cells.length + 1) h
  | _, _ => some 0

/-- Total number of data cells over all owner records. -/
def spec_data_len (lr : linked_ring) : Option Nat :=
  match lr.owners with
  | none => some 0
  | some o =>
    (List.range lr.cells.length).foldl
      (fun acc oc => acc.bind fun a =>
        if o ≤ oc then (spec_owner_len lr oc).map (a + ·) else some a)
      (some 0)

/-- The spec's conservation invariant: owner records plus data cells plus
free cells account for every cell of the arena. -/
def spec_conserved (lr : linked_ring) : Bool :=
  match spec_data_len lr,
      spec_free_len lr.cells (lr.cells.length + 1) lr.write with
  | some d, some f => lr_owners_count lr + d + f == lr.size
  | _, _ => false

/-! ## Toolkit: array-access lemmas -/

theorem length_setNext (cs : List lr_cell) (i : Nat) (nx : Option Nat) :
    (setNext cs i nx).length = cs.length := by
  simp [setNext]

theorem length_setData (cs : List lr_cell) (i : Nat) (d : Nat) :
    (setData cs i d).length = cs.length := by
  simp [setData]

theorem cellAt_map_range (f : Nat → lr_cell) {n i : Nat} (h : i < n) :
    cellAt ((List.range n).map f) i = f i := by
  simp [cellAt, List.getD_eq_getElem?_getD, List.getElem?_map,
    List.getElem?_range h]

theorem cellAt_map_range_ge (f : Nat → lr_cell) {n i : Nat} (h : n ≤ i) :
    cellAt ((List.range n).map f) i = lr_cell_zero := by
  have : ((List.range n).map f).length ≤ i := by simpa using h
  simp [cellAt, List.getD_eq_getElem?_getD, List.getElem?_eq_none this]

theorem cellAt_set (cs : List lr_cell) (i : Nat) (c : lr_cell) (j : Nat) :
    cellAt (cs.set i c) j =
      if i = j ∧ j < cs.length then c else cellAt cs j := by
  by_cases hij : i = j
  · subst hij
    by_cases hlen : i < cs.length
    · simp [cellAt, List.getD_eq_getElem?_getD, List.getElem?_set_self, hlen]
    · have h1 : cs.set i c = cs := List.set_eq_of_length_le (by omega)
      simp [h1, hlen]
  · simp [cellAt, List.getD_eq_getElem?_getD, List.getElem?_set_ne hij, hij]

theorem cellAt_setNext (cs : List lr_cell) (i : Nat) (nx : Option Nat) (j : Nat) :
    cellAt (setNext cs i nx) j =
      if i = j ∧ j < cs.length then { cellAt cs j with next := nx }
      else cellAt cs j := by
  rw [setNext, cellAt_set]
  by_cases h : i = j ∧ j < cs.length
  · obtain ⟨h1, h2⟩ := h; subst h1; simp [h2]
  · simp [h]

theorem cellAt_setData (cs : List lr_cell) (i : Nat) (d : Nat) (j : Nat) :
    cellAt (setData cs i d) j =
      if i = j ∧ j < cs.length then { cellAt cs j with data := d }
      else cellAt cs j := by
  rw [setData, cellAt_set]
  by_cases h : i = j ∧ j < cs.length
  · obtain ⟨h1, h2⟩ := h; subst h1; simp [h2]
  · simp [h]

theorem cells_ext {cs cs' : List lr_cell} (hlen : cs.length = cs'.length)
    (h : ∀ i, i < cs.length → cellAt cs i = cellAt cs' i) : cs = cs' := by
  apply List.ext_getElem hlen
  intro i h1 h2
  have := h i h1
  simpa [cellAt, List.getD_eq_getElem?_getD, List.getElem?_eq_getElem, h1, h2]
    using this

theorem linked_ring_eq {a b : linked_ring} (h1 : a.cells = b.cells)
    (h2 : a.write = b.write) (h3 : a.owners = b.owners)
    (h4 : a.hasMutex = b.hasMutex) (h5 : a.lockDepth = b.lockDepth) :
    a = b := by
  cases a; cases b; simp_all

theorem lr_owner_scan_unfold (cs : List lr_cell) (owner i : Nat) :
    lr_owner_scan cs owner i =
      if i < cs.length then
        (if (cellAt cs i).data = owner then some i
         else lr_owner_scan cs owner (i + 1))
      else none := by
  rw [lr_owner_scan, lr_owner_scan]
  by_cases h : i < cs.length
  · rw [show cs.length + 1 - i = cs.length + 1 - (i + 1) + 1 from by omega,
      lr_owner_scan_go, if_pos h]
  · rw [if_neg h]
    cases hf : cs.length + 1 - i with
    | zero => rw [lr_owner_scan_go]
    | succ f => rw [lr_owner_scan_go, if_neg h]

theorem lr_prev_walk_unfold (cs : List lr_cell) (last i : Nat) :
    lr_prev_walk cs last i =
      if (cellAt cs i).next = none ∧ i < last then lr_prev_walk cs last (i + 1)
      else i := by
  rw [lr_prev_walk, lr_prev_walk]
  by_cases h : (cellAt cs i).next = none ∧ i < last
  · rw [show last - i = last - (i + 1) + 1 from by omega,
      lr_prev_walk_go, if_pos h]
  · rw [if_neg h]
    cases hf : last - i with
    | zero => rw [lr_prev_walk_go]
    | succ f => rw [lr_prev_walk_go, if_neg h]

theorem lr_prev_walk_ub_unfold (cs : List lr_cell) (i : Nat) :
    lr_prev_walk_ub cs i =
      if i < cs.length then
        (if (cellAt cs i).next = none then lr_prev_walk_ub cs (i + 1)
         else some i)
      else none := by
  rw [lr_prev_walk_ub, lr_prev_walk_ub]
  by_cases h : i < cs.length
  · rw [show cs.length + 1 - i = cs.length + 1 - (i + 1) + 1 from by omega,
      lr_prev_walk_ub_go, if_pos h]
  · rw [if_neg h]
    cases hf : cs.length + 1 - i with
    | zero => rw [lr_prev_walk_ub_go]
    | succ f => rw [lr_prev_walk_ub_go, if_neg h]

theorem lr_owner_scan_hit {cs : List lr_cell} {owner i : Nat}
    (h : i < cs.length) (hd : (cellAt cs i).data = owner) :
    lr_owner_scan cs owner i = some i := by
  rw [lr_owner_scan_unfold]; simp [h, hd]

theorem lr_prev_walk_stop {cs : List lr_cell} {last i : Nat}
    (h : (cellAt cs i).next ≠ none) : lr_prev_walk cs last i = i := by
  rw [lr_prev_walk_unfold]; simp [h]

theorem lr_prev_walk_ub_stop {cs : List lr_cell} {i : Nat}
    (hlen : i < cs.length) (h : (cellAt cs i).next ≠ none) :
    lr_prev_walk_ub cs i = some i := by
  rw [lr_prev_walk_ub_unfold]; simp [hlen, h]

/-! ## Toolkit: traversals of ascending interval rings -/

theorem lr_pop_walk_chain {cs : List lr_cell} {oc tail : Nat} :
    ∀ (fuel ν : Nat), ν < tail →
      (∀ i, ν ≤ i → i < tail → (cellAt cs i).next = some (i + 1)) →
      tail - ν ≤ fuel →
      lr_pop_walk cs oc tail fuel ν =
        some (setNext (setNext cs oc (some (tail - 1))) (tail - 1)
          ((cellAt (setNext cs oc (some (tail - 1))) tail).next)) := by
  intro fuel
  induction fuel with
  | zero => intro ν h1 h2 h3; omega
  | succ f ih =>
    intro ν h1 hch h3
    rw [lr_pop_walk]
    rw [if_neg (by omega)]
    simp only [hch ν le_rfl h1]
    by_cases he : ν + 1 = tail
    · simp only [if_pos he]
      have hv : ν = tail - 1 := by omega
      subst hv
      rfl
    · simp only [if_neg he]
      exact ih (ν + 1) (by omega) (fun i hi1 hi2 => hch i (by omega) hi2)
        (by omega)

theorem lr_index_walk_ok {cs : List lr_cell} {tail : Nat} :
    ∀ (cnt ν : Nat),
      (∀ i, ν ≤ i → i < ν + cnt → (cellAt cs i).next = some (i + 1)) →
      ν + cnt ≤ tail →
      lr_index_walk cs tail ν cnt =
        some (some ((cellAt cs (ν + cnt)).data)) := by
  intro cnt
  induction cnt with
  | zero => intro ν hch h; rfl
  | succ c ih =>
    intro ν hch h
    rw [lr_index_walk]
    rw [if_neg (by omega)]
    simp only [hch ν le_rfl (by omega)]
    have hrec := ih (ν + 1) (fun i hi1 hi2 => hch i (by omega) (by omega))
      (by omega)
    rw [show ν + (c + 1) = ν + 1 + c by omega]
    exact hrec

theorem lr_index_walk_invalid {cs : List lr_cell} {tail : Nat} :
    ∀ (cnt ν : Nat),
      (∀ i, ν ≤ i → i < tail → (cellAt cs i).next = some (i + 1)) →
      ν ≤ tail → tail < ν + cnt →
      lr_index_walk cs tail ν cnt = some none := by
  intro cnt
  induction cnt with
  | zero => intro ν hch h1 h2; omega
  | succ c ih =>
    intro ν hch h1 h2
    rw [lr_index_walk]
    by_cases he : ν = tail
    · rw [if_pos he]
    · rw [if_neg he]
      simp only [hch ν le_rfl (by omega)]
      exact ih (ν + 1) (fun i hi1 hi2 => hch i (by omega) hi2) (by omega)
        (by omega)

theorem lr_count_walk_chain {cs : List lr_cell} {b : Nat} :
    ∀ (fuel ν len : Nat), ν ≤ b →
      (∀ i, ν ≤ i → i < b → (cellAt cs i).next = some (i + 1)) →
      b - ν < fuel →
      lr_count_walk cs (some b) 0 fuel (some ν) len = some (len + (b - ν)) := by
  intro fuel
  induction fuel with
  | zero => intro ν len h1 h2 h3; omega
  | succ f ih =>
    intro ν len h1 hch h3
    rw [lr_count_walk]
    by_cases he : ν = b
    · subst he; simp
    · rw [if_pos (by simp [he])]
      simp only [hch ν le_rfl (by omega)]
      have hrec := ih (ν + 1) (len + 1) (by omega)
        (fun i hi1 hi2 => hch i (by omega) hi2) (by omega)
      rw [hrec]
      congr 1
      omega

theorem lr_string_walk_chain {cs : List lr_cell} {b : Nat} {stop : Option Nat} :
    ∀ (fuel ν : Nat) (acc : List Nat), ν ≤ b →
      (∀ i, ν ≤ i → i < b → (cellAt cs i).next = some (i + 1)) →
      (cellAt cs b).next = stop →
      (∀ i, ν < i → i ≤ b → stop ≠ some i) →
      b - ν < fuel →
      lr_string_walk cs stop fuel ν acc =
        some (acc ++ (List.range' ν (b - ν + 1)).map
          (fun i => (cellAt cs i).data)) := by
  intro fuel
  induction fuel with
  | zero => intro ν acc h1 h2 h3 h4 h5; omega
  | succ f ih =>
    intro ν acc h1 hch hstop hns h5
    rw [lr_string_walk]
    by_cases he : ν = b
    · subst he
      simp only [hstop, if_pos rfl]
      simp
    · have hlt : ν < b := by omega
      have hnx : (cellAt cs ν).next = some (ν + 1) := hch ν le_rfl hlt
      simp only [hnx]
      rw [if_neg (by
        intro hcon
        exact hns (ν + 1) (by omega) (by omega) hcon.symm)]
      have hrec := ih (ν + 1) (acc ++ [(cellAt cs ν).data]) (by omega)
        (fun i hi1 hi2 => hch i (by omega) hi2) hstop
        (fun i hi1 hi2 => hns i (by omega) hi2) (by omega)
      rw [hrec]
      have hrange : List.range' ν (b - ν + 1) =
          ν :: List.range' (ν + 1) (b - (ν + 1) + 1) := by
        have h6 : b - ν + 1 = (b - (ν + 1) + 1) + 1 := by omega
        rw [h6, List.range'_succ]
      rw [hrange]
      simp

theorem lr_lookup_walk_chain {cs : List lr_cell} {head target : Nat} :
    ∀ (fuel ν : Nat), ν < target →
      (∀ i, ν ≤ i → i < target → (cellAt cs i).next = some (i + 1)) →
      (∀ i, ν < i → i ≤ target → head ≠ i) →
      target - ν ≤ fuel →
      lr_lookup_walk cs head target fuel ν = some (target - 1) := by
  intro fuel
  induction fuel with
  | zero => intro ν h1 h2 h3 h4; omega
  | succ f ih =>
    intro ν h1 hch hns h4
    rw [lr_lookup_walk]
    simp only [hch ν le_rfl h1]
    by_cases he : ν + 1 = target
    · rw [if_pos (Or.inr he)]
      congr 1
      omega
    · rw [if_neg (by
        rintro (hcon | hcon)
        · exact hns (ν + 1) (by omega) (by omega) hcon.symm
        · exact he hcon)]
      exact ih (ν + 1) (by omega) (fun i hi1 hi2 => hch i (by omega) hi2)
        (fun i hi1 hi2 => hns i (by omega) hi2) (by omega)

theorem range'_map_getD (vs : List Nat) :
    (List.range' 0 vs.length).map (fun i => vs.getD i 0) = vs := by
  apply List.ext_getElem
  · simp
  · intro i h1 h2
    simp only [List.getElem_map, List.getElem_range']
    simp [List.getD_eq_getElem?_getD, List.getElem?_eq_getElem h2]

/-! ## Toolkit: family accessors -/

theorem mkPop_cells_length (n O : Nat) (vs : List Nat) (m : Nat) :
    (mkPop n O vs m).cells.length = n := by simp [mkPop]

theorem mkPop_cellAt (O : Nat) (vs : List Nat) (m : Nat) {n i : Nat}
    (h : i < n) : cellAt (mkPop n O vs m).cells i = mkPopCell n O vs m i :=
  cellAt_map_range _ h

theorem mkGet_cells_length (n O : Nat) (vs : List Nat) (j : Nat) :
    (mkGet n O vs j).cells.length = n := by simp [mkGet]

theorem mkGet_cellAt (O : Nat) (vs : List Nat) (j : Nat) {n i : Nat}
    (h : i < n) : cellAt (mkGet n O vs j).cells i = mkGetCell n O vs j i :=
  cellAt_map_range _ h

theorem cellAt_replicate_zero {n i : Nat} (h : i < n) :
    cellAt (List.replicate n lr_cell_zero) i = lr_cell_zero := by
  simp [cellAt, List.getD_eq_getElem?_getD, List.getElem?_replicate, h]

/-- The cell layout of a fresh zero-initialized ring. -/
def freshCell (n i : Nat) : lr_cell :=
  if i < n - 1 then ⟨0, some (i + 1)⟩ else ⟨0, none⟩

theorem freshRing_eq {n : Nat} (h : 1 ≤ n) :
    freshRing n = { cells := (List.range n).map (freshCell n),
                    write := some 0, owners := none,
                    hasMutex := false, lockDepth := 0 } := by
  rw [freshRing, lr_init]
  rw [if_neg (by simp; omega)]
  simp only [Option.getD_some, List.length_replicate]
  congr 1
  apply List.map_congr_left
  intro i hi
  have hin : i < n := List.mem_range.mp hi
  simp only [List.length_replicate, freshCell, cellAt_replicate_zero hin]
  by_cases hc : i < n - 1 <;> simp [hc, lr_cell_zero]

theorem unlock_no_mutex {s : linked_ring} (h : s.hasMutex = false) :
    unlock s = s := by simp [unlock, h]

theorem getD_append_lt (vs : List Nat) (v : Nat) {i : Nat}
    (h : i < vs.length) : (vs ++ [v]).getD i 0 = vs.getD i 0 := by
  rw [List.getD_eq_getElem?_getD, List.getD_eq_getElem?_getD,
    List.getElem?_append, if_pos h]

theorem getD_append_self (vs : List Nat) (v : Nat) :
    (vs ++ [v]).getD vs.length 0 = v := by
  rw [List.getD_eq_getElem?_getD]
  rw [List.getElem?_append_right le_rfl]
  simp

theorem getD_ge (vs : List Nat) {i : Nat} (h : vs.length ≤ i) :
    vs.getD i 0 = 0 := by
  rw [List.getD_eq_getElem?_getD, List.getElem?_eq_none h]
  rfl

theorem mkPop_owners (n O : Nat) (vs : List Nat) (m : Nat) :
    (mkPop n O vs m).owners = some (n - 1) := rfl

theorem mkPop_hasMutex (n O : Nat) (vs : List Nat) (m : Nat) :
    (mkPop n O vs m).hasMutex = false := rfl

theorem lock_mkPop (n O : Nat) (vs : List Nat) (m : Nat) :
    lock (mkPop n O vs m) = mkPop n O vs m := by
  simp [lock, mkPop]

theorem mkPop_owner_cell (n O : Nat) (vs : List Nat) {m : Nat}
    (hm : m ≤ n - 1) (hn : 1 ≤ n) :
    cellAt (mkPop n O vs m).cells (n - 1) = ⟨O, some (m - 1)⟩ := by
  by_cases hme : m = n - 1
  · rw [mkPop_cellAt O vs m (by omega), mkPopCell, if_neg (by omega),
      if_pos rfl]
  · rw [mkPop_cellAt O vs m (by omega), mkPopCell, if_neg (by omega),
      if_pos rfl]

theorem mkPop_find (n O : Nat) (vs : List Nat) {m : Nat}
    (hm : m ≤ n - 1) (hn : 1 ≤ n) :
    lr_owner_find (mkPop n O vs m) O = some (n - 1) := by
  simp only [lr_owner_find, mkPop_owners]
  exact lr_owner_scan_hit
    (by rw [mkPop_cells_length]; omega)
    (by rw [mkPop_owner_cell n O vs hm hn])

theorem mkPop_owner_get (n O : Nat) (vs : List Nat) {m : Nat}
    (hm : m ≤ n - 1) (hn : 1 ≤ n) :
    lr_owner_get (mkPop n O vs m) O = some (some (n - 1), mkPop n O vs m) := by
  simp only [lr_owner_get, mkPop_find n O vs hm hn]

/-- `lr_put` advances the canonical single-owner state: the new value is
appended after the tail, the owner record is repointed at the fresh cell. -/
theorem lr_put_step (n O v : Nat) (vs : List Nat)
    (hn : 2 ≤ n) (hk1 : 1 ≤ vs.length) (hk2 : vs.length ≤ n - 2) :
    lr_put (mkPop n O vs vs.length) v O =
      some (LR_OK, mkPop n O (vs ++ [v]) (vs.length + 1)) := by
  set k := vs.length with hk
  have hwrite : (mkPop n O vs k).write = some k := by
    simp only [mkPop]
    rw [if_pos (by omega)]
  have htail : lr_owner_tail (mkPop n O vs k).cells (n - 1) = some (k - 1) := by
    rw [lr_owner_tail, mkPop_owner_cell n O vs (by omega) (by omega)]
  have hcellk : cellAt (mkPop n O vs k).cells k =
      ⟨0, if k = n - 2 then none else some (k + 1)⟩ := by
    rw [mkPop_cellAt O vs k (by omega), mkPopCell, if_neg (by omega),
      if_neg (by omega), getD_ge vs (by omega)]
  have hc0 : (cellAt (setData (mkPop n O vs k).cells k v) (k - 1)).next =
      some 0 := by
    rw [cellAt_setData, if_neg (by omega),
      mkPop_cellAt O vs k (by omega), mkPopCell, if_pos (by omega)]
    simp
  simp only [lr_put, lock_mkPop, hwrite,
    mkPop_owner_get n O vs (by omega : k ≤ n - 1) (by omega), lr_owner_tail,
    mkPop_owner_cell n O vs (by omega : k ≤ n - 1) (by omega), hcellk, hc0]
  rw [unlock_no_mutex (by rfl)]
  refine congrArg (fun s => some (LR_OK, s)) ?_
  apply linked_ring_eq
  · -- the cells
    show setNext (setNext (setNext (setData (mkPop n O vs k).cells k v) k
        (some 0)) (k - 1) (some k)) (n - 1) (some k) =
      (mkPop n O (vs ++ [v]) (k + 1)).cells
    apply cells_ext
    · simp [length_setNext, length_setData, mkPop_cells_length, mkGet_cells_length, mkPop]
    · intro i hi0
      have hi : i < n := by
        simpa [length_setNext, length_setData, mkPop_cells_length] using hi0
      simp only [cellAt_setNext, cellAt_setData, length_setNext, length_setData,
        mkPop_cells_length, mkPop_cellAt O vs k hi,
        mkPop_cellAt O (vs ++ [v]) (k + 1) hi, mkPopCell]
      by_cases h1 : i = n - 1
      · subst h1
        simp [show ¬(n - 1 < k) from by omega,
          show ¬(n - 1 < k + 1) from by omega,
          show (n - 1 : Nat) < n from by omega,
          show ¬(n - 1 = k) from by omega,
          show ¬(k = n - 1) from by omega,
          show ¬(n - 1 = k - 1) from by omega,
          show ¬(k - 1 = n - 1) from by omega]
      · by_cases h2 : i = k
        · subst h2
          simp [show ¬(k = n - 1) from by omega,
            show ¬(n - 1 = k) from by omega,
            show ¬(k < k) from by omega,
            show (k : Nat) < k + 1 from by omega,
            show ¬(k = k - 1) from by omega,
            show ¬(k - 1 = k) from by omega,
            show (k : Nat) < n from by omega,
            getD_append_self vs v]
        · by_cases h3 : i = k - 1
          · subst h3
            simp [show ¬(k - 1 = n - 1) from by omega,
              show ¬(n - 1 = k - 1) from by omega,
              show ¬(k = k - 1) from by omega,
              show (k - 1 : Nat) < k from by omega,
              show (k - 1 : Nat) < k + 1 from by omega,
              show (k - 1 : Nat) < n from by omega,
              show ¬(k - 1 = k) from by omega,
              getD_append_lt vs v (show k - 1 < vs.length from by omega)]
            refine ⟨?_, by omega⟩
            rw [List.getElem_append_left]
          · by_cases h4 : i < k
            · simp [show ¬(n - 1 = i) from by omega,
                show ¬(i = n - 1) from by omega,
                show ¬(k - 1 = i) from by omega,
                show ¬(i = k - 1) from by omega,
                show ¬(k = i) from by omega,
                show ¬(i = k) from by omega,
                h4, show i < k + 1 from by omega,
                getD_append_lt vs v (show i < vs.length from by omega)]
              rw [List.getElem_append_left]
            · -- free region: k < i < n - 1
              simp [show ¬(n - 1 = i) from by omega,
                show ¬(i = n - 1) from by omega,
                show ¬(k - 1 = i) from by omega,
                show ¬(i = k - 1) from by omega,
                show ¬(k = i) from by omega,
                show ¬(i = k) from by omega,
                show ¬(i < k) from by omega,
                show ¬(i < k + 1) from by omega,
                getD_ge vs (show vs.length ≤ i from by omega),
                getD_ge (vs ++ [v]) (show (vs ++ [v]).length ≤ i from by
                  simp; omega)]
              rw [List.getElem?_eq_none (by omega : vs.length ≤ i),
                List.getElem?_eq_none (by simp; omega : (vs ++ [v]).length ≤ i)]
  · -- the write pointer
    show (if k = n - 2 then none else some (k + 1)) =
      (if k + 1 < n - 1 then some (k + 1) else none)
    by_cases hke : k = n - 2
    · rw [if_pos hke, if_neg (by omega)]
    · rw [if_neg hke, if_pos (by omega)]
  · rfl
  · rfl
  · rfl

theorem lr_put_base (n O v : Nat) (hn : 2 ≤ n) :
    lr_put (freshRing n) v O = some (LR_OK, mkPop n O [v] 1) := by
  rw [freshRing_eq (by omega)]
  have hcell : ∀ i, i < n → cellAt ((List.range n).map (freshCell n)) i =
      freshCell n i := fun i hi => cellAt_map_range _ hi
  have hcell0 : cellAt ((List.range n).map (freshCell n)) 0 = ⟨0, some 1⟩ := by
    rw [hcell 0 (by omega), freshCell, if_pos (by omega)]
  have hwalk : lr_lookup_walk ((List.range n).map (freshCell n)) 0 (n - 1)
      (n + 1) 0 = some (n - 2) := by
    rw [show n - 2 = n - 1 - 1 from by omega]
    apply lr_lookup_walk_chain (n + 1) 0 (by omega)
    · intro i hi1 hi2
      rw [hcell i (by omega), freshCell, if_pos (by omega)]
    · intro i hi1 hi2
      omega
    · omega
  have hcelln2 : cellAt ((List.range n).map (freshCell n)) (n - 2) =
      ⟨0, some (n - 1)⟩ := by
    rw [hcell (n - 2) (by omega), freshCell, if_pos (by omega)]
    have h2 : n - 2 + 1 = n - 1 := by omega
    rw [h2]
  have hcelln1 : cellAt ((List.range n).map (freshCell n)) (n - 1) =
      ⟨0, none⟩ := by
    rw [hcell (n - 1) (by omega), freshCell, if_neg (by omega)]
  have hCS2tail : (cellAt (setNext (setData (setNext ((List.range n).map
      (freshCell n)) (n - 2) none) (n - 1) O) (n - 1) none) (n - 1)).next =
      none := by
    simp [cellAt_setNext, length_setData, length_setNext,
      show n - 1 < n from by omega]
  have hCS20 : (cellAt (setNext (setData (setNext ((List.range n).map
      (freshCell n)) (n - 2) none) (n - 1) O) (n - 1) none) 0).next =
      if 1 < n - 1 then some 1 else none := by
    by_cases h2 : n = 2
    · subst h2
      simp [cellAt_setNext, cellAt_setData, length_setData, length_setNext,
        hcell0]
    · simp [cellAt_setNext, cellAt_setData, length_setData, length_setNext,
        show ¬(n - 1 = 0) from by omega, show ¬(n - 2 = 0) from by omega,
        hcell0, show 1 < n - 1 from by omega]
  simp only [lr_put, lock, lr_owner_get, lr_owner_find, lr_owner_allocate,
    lr_owner_allocate_free, lr_owners_count, linked_ring.size, unlock,
    lr_owner_tail, lr_last_cell, Bool.false_eq_true, if_false, if_true,
    List.length_map, List.length_range, Nat.sub_zero, hcell0, hwalk,
    hcelln2, hcelln1, Option.some.injEq,
    show ¬((0 : Nat) = n - 1) from by omega, reduceCtorEq,
    hCS2tail, hCS20, show ¬(n - 1 < n - 1) from by omega,
    length_setNext, length_setData]
  refine congrArg (fun s => (LR_OK, s)) ?_
  rw [mkPop]
  simp only [linked_ring.mk.injEq]
  refine ⟨?_, ?_, trivial, trivial, trivial⟩
  · apply cells_ext
    · simp [length_setNext, length_setData]
    · intro i hi0
      have hi : i < n := by
        simpa [length_setNext, length_setData] using hi0
      simp only [cellAt_setNext, cellAt_setData, length_setNext,
        length_setData, List.length_map, List.length_range, hcell i hi,
        cellAt_map_range (mkPopCell n O [v] 1) hi, freshCell, mkPopCell]
      by_cases h1 : i = 0
      · subst h1
        by_cases hn2 : n = 2
        · subst hn2
          simp
        · simp [show ¬(n - 1 = 0) from by omega,
            show ¬(n - 2 = 0) from by omega,
            show (0 : Nat) < n from by omega,
            show (0 : Nat) < 1 from by omega,
            show (0 : Nat) < n - 1 from by omega]
      · by_cases h2 : i = n - 1
        · subst h2
          simp [show ¬(n - 1 = 0) from by omega,
            show ¬((0 : Nat) = n - 1) from by omega,
            show ¬(n - 2 = n - 1) from by omega,
            show ¬(n - 1 < n - 1) from by omega,
            show n - 1 < n from by omega,
            show ¬(n - 1 < 1) from by omega]
        · by_cases h3 : i = n - 2
          · subst h3
            simp [show ¬(n - 1 = n - 2) from by omega,
              show ¬((0 : Nat) = n - 2) from by omega,
              show ¬(n - 2 = 0) from by omega,
              show n - 2 < n from by omega,
              show ¬(n - 2 < 1) from by omega,
              show ¬(n - 2 = n - 1) from by omega,
              show n - 2 < n - 1 from by omega,
              getD_ge [v] (show ([v] : List Nat).length ≤ n - 2 from by
                simp; omega)]
            rw [List.getElem?_eq_none
              (show ([v] : List Nat).length ≤ n - 2 from by simp; omega)]
            rfl
          · simp [show ¬(n - 1 = i) from by omega,
              show ¬((0 : Nat) = i) from by omega,
              show ¬(n - 2 = i) from by omega,
              show ¬(i < 1) from by omega,
              show ¬(i = n - 1) from by omega,
              show ¬(i = n - 2) from by omega,
              show i < n - 1 from by omega,
              getD_ge [v] (show ([v] : List Nat).length ≤ i from by
                simp; omega)]
            rw [List.getElem?_eq_none
              (show ([v] : List Nat).length ≤ i from by simp; omega)]
            rfl
  · trivial

theorem mkGet_owners (n O : Nat) (vs : List Nat) (j : Nat) :
    (mkGet n O vs j).owners = some (n - 1) := rfl

theorem mkGet_hasMutex (n O : Nat) (vs : List Nat) (j : Nat) :
    (mkGet n O vs j).hasMutex = false := rfl

theorem mkGet_lockDepth (n O : Nat) (vs : List Nat) (j : Nat) :
    (mkGet n O vs j).lockDepth = 0 := rfl

theorem lock_mkGet (n O : Nat) (vs : List Nat) (j : Nat) :
    lock (mkGet n O vs j) = mkGet n O vs j := by
  simp [lock, mkGet]

theorem mkGet_last_cell (n O : Nat) (vs : List Nat) (j : Nat) :
    lr_last_cell (mkGet n O vs j) = n - 1 := by
  simp [lr_last_cell, linked_ring.size, mkGet]

/-- A non-final `lr_get` on the canonical state advances the head, returning
the oldest value. -/
theorem lr_get_step (n O : Nat) (vs : List Nat) (j : Nat)
    (hn : 2 ≤ n) (hk : vs.length ≤ n - 1) (hj : j + 1 < vs.length) :
    lr_get (mkGet n O vs j) O =
      some (LR_OK, some (vs.getD j 0), mkGet n O vs (j + 1)) := by
  set k := vs.length with hkdef
  have hrw : ∀ i, i < n →
      cellAt (mkGet n O vs j).cells i = mkGetCell n O vs j i :=
    fun i hi => mkGet_cellAt O vs j hi
  have hOwner : cellAt (mkGet n O vs j).cells (n - 1) = ⟨O, some (k - 1)⟩ := by
    rw [hrw (n - 1) (by omega), mkGetCell, if_neg (by omega),
      if_neg (by omega), if_pos rfl]
  have hscan : lr_owner_scan (mkGet n O vs j).cells O (n - 1) = some (n - 1) :=
    lr_owner_scan_hit (by rw [mkGet_cells_length]; omega) (by rw [hOwner])
  have hck1 : cellAt (mkGet n O vs j).cells (k - 1) =
      ⟨vs.getD (k - 1) 0, some j⟩ := by
    rw [hrw (k - 1) (by omega), mkGetCell, if_neg (by omega),
      if_pos (by omega), if_pos rfl]
  have hcj : cellAt (mkGet n O vs j).cells j =
      ⟨vs.getD j 0, some (j + 1)⟩ := by
    rw [hrw j (by omega), mkGetCell, if_neg (by omega), if_pos (by omega),
      if_neg (by omega)]
  have hpw : lr_prev_walk (mkGet n O vs j).cells (n - 1) (n - 1) = n - 1 :=
    lr_prev_walk_stop (by rw [hOwner]; simp)
  have hcs1j : cellAt (setNext (mkGet n O vs j).cells (k - 1) (some (j + 1)))
      j = ⟨vs.getD j 0, some (j + 1)⟩ := by
    rw [cellAt_setNext, if_neg (by omega), hcj]
  have hcs1o : cellAt (setNext (mkGet n O vs j).cells (k - 1) (some (j + 1)))
      (n - 1) = ⟨O, some (k - 1)⟩ := by
    rw [cellAt_setNext, if_neg (by omega), hOwner]
  simp only [lr_get, lock_mkGet, mkGet_owners, hscan, mkGet_last_cell,
    eq_self_iff_true, if_true, hpw, hOwner, hck1, hcj, lr_owner_tail,
    hcs1j, hcs1o, Option.some.injEq, mkGet_hasMutex, mkGet_lockDepth,
    show ¬(j = k - 1) from by omega, if_false, unlock, Bool.false_eq_true]
  refine congrArg (fun s => (LR_OK, some (vs.getD j 0), s)) ?_
  apply linked_ring_eq
  · show setData (setNext (setNext (mkGet n O vs j).cells (k - 1)
        (some (j + 1))) j (mkGet n O vs j).write) j 0 =
      (mkGet n O vs (j + 1)).cells
    apply cells_ext
    · simp [length_setNext, length_setData, mkGet_cells_length]
    · intro i hi0
      have hi : i < n := by
        simpa [length_setNext, length_setData, mkGet_cells_length] using hi0
      simp only [cellAt_setNext, cellAt_setData, length_setNext,
        length_setData, mkGet_cells_length, hrw i hi,
        mkGet_cellAt O vs (j + 1) hi, mkGetCell]
      by_cases h1 : i = j
      · subst h1
        simp only [show (i : Nat) < n from by omega, and_true,
          eq_self_iff_true, if_true, show ¬(k - 1 = i) from by omega,
          if_false, show (i : Nat) < i + 1 from by omega]
        by_cases h2 : i = 0
        · subst h2
          simp [mkGet]
        · simp [mkGet, show ¬(i < i) from by omega, h2,
            show 1 ≤ i from by omega]
      · by_cases h2 : i = k - 1
        · subst h2
          simp [show ¬(j = k - 1) from by omega,
            show ¬(k - 1 = j) from by omega,
            show (k - 1 : Nat) < n from by omega,
            show ¬(k - 1 < j) from by omega,
            show ¬(k - 1 < j + 1) from by omega,
            show (k - 1 : Nat) < k from by omega]
        · by_cases h3 : i < j
          · simp [show ¬(k - 1 = i) from by omega,
              show ¬(j = i) from by omega, h3,
              show i < j + 1 from by omega,
              show i < k from by omega]
          · by_cases h4 : i < k
            · -- j < i < k - 1: untouched ring cell
              simp [show ¬(k - 1 = i) from by omega,
                show ¬(j = i) from by omega, h3, h4,
                show ¬(i < j) from by omega,
                show ¬(i < j + 1) from by omega,
                show ¬(i = k - 1) from by omega]
            · -- owner record or free cell: untouched
              simp [show ¬(k - 1 = i) from by omega,
                show ¬(j = i) from by omega,
                show ¬(i < j) from by omega,
                show ¬(i < j + 1) from by omega, h4]
  · show some j = if 1 ≤ j + 1 then some (j + 1 - 1)
        else if vs.length < n - 1 then some vs.length else none
    rw [if_pos (by omega : 1 ≤ j + 1)]
    simp
  · rfl
  · rfl
  · rfl

theorem length_shift (cs : List lr_cell) (ow oc : Nat) :
    (lr_owner_shift cs ow oc).length = cs.length := by
  simp [lr_owner_shift]

theorem cellAt_shift (cs : List lr_cell) (ow oc i : Nat) (h : i < cs.length) :
    cellAt (lr_owner_shift cs ow oc) i =
      if ow < i ∧ i ≤ oc then cellAt cs (i - 1) else cellAt cs i := by
  rw [lr_owner_shift, cellAt_map_range _ h]

/-- Shared cell computation for the last `lr_get` of an owner: the compaction
is trivial (single owner), the record cell is linked to the old write position
`W`, the freed head points at the record cell and is zeroed. -/
theorem lr_get_last_cells (n O : Nat) (vs : List Nat) (W : Option Nat)
    (hn : 2 ≤ n) (hk1 : 1 ≤ vs.length) (hk : vs.length ≤ n - 1)
    (hWd : W = if 2 ≤ vs.length then some (vs.length - 2)
           else if vs.length < n - 1 then some vs.length else none) :
    setData (setNext (setNext (lr_owner_shift (setNext (mkGet n O vs
      (vs.length - 1)).cells (vs.length - 1) (some (vs.length - 1)))
      (n - 1) (n - 1)) (n - 1) W) (vs.length - 1) (some (n - 1)))
      (vs.length - 1) 0 = (mkGetDrained n O vs).cells := by
  set k := vs.length with hkdef
  apply cells_ext
  · simp [length_setNext, length_setData, length_shift, mkGet_cells_length,
      mkGetDrained]
  · intro i hi0
    have hi : i < n := by
      simpa [length_setNext, length_setData, length_shift,
        mkGet_cells_length] using hi0
    have hsh : ∀ q, q < n → cellAt (lr_owner_shift (setNext (mkGet n O vs
        (k - 1)).cells (k - 1) (some (k - 1))) (n - 1) (n - 1)) q =
        cellAt (setNext (mkGet n O vs (k - 1)).cells (k - 1)
          (some (k - 1))) q := by
      intro q hq
      rw [cellAt_shift _ _ _ _ (by
        simp [length_setNext, mkGet_cells_length]; omega)]
      rw [if_neg (by omega)]
    simp only [cellAt_setNext, cellAt_setData, length_setNext, length_setData,
      length_shift, mkGet_cells_length, hsh i hi, mkGet_cellAt O vs (k - 1) hi,
      cellAt_map_range (mkGetDrainedCell n O vs) hi, mkGetDrained,
      mkGetCell, mkGetDrainedCell]
    by_cases h1 : i = n - 1
    · subst h1
      simp only [show ¬(k - 1 = n - 1) from by omega, false_and, if_false,
        show ((n - 1 : Nat) = n - 1) from rfl, and_true, eq_self_iff_true,
        if_true, show (n - 1 : Nat) < n from by omega,
        show ¬(n - 1 < k - 1) from by omega,
        show ¬(n - 1 < k) from by omega, hWd, ← hkdef,
        show ¬(n - 1 = k - 1) from by omega]
    · by_cases h2 : i = k - 1
      · subst h2
        simp [show (k - 1 : Nat) < n from by omega,
          show ¬(k - 1 = n - 1) from by omega,
          show ¬(n - 1 = k - 1) from by omega,
          show ¬(k - 1 < k - 1) from by omega,
          show (k - 1 : Nat) < k from by omega, ← hkdef]
      · by_cases h3 : i < k - 1
        · simp [show ¬(k - 1 = i) from by omega,
            show ¬(n - 1 = i) from by omega,
            show ¬(i = n - 1) from by omega, h3,
            show i < k from by omega, ← hkdef]
        · -- free region: k ≤ i ≤ n - 2
          simp [show ¬(k - 1 = i) from by omega,
            show ¬(n - 1 = i) from by omega,
            show ¬(i = n - 1) from by omega, h3,
            show ¬(i < k) from by omega,
            show ¬(i = k - 1) from by omega,
            show ¬(i < k - 1) from by omega, ← hkdef]

/-- The last `lr_get` of an owner releases the owner record and returns the
final value; the arena ends with no owners and both cells on the free list. -/
theorem lr_get_last (n O : Nat) (vs : List Nat)
    (hn : 2 ≤ n) (hk1 : 1 ≤ vs.length) (hk : vs.length ≤ n - 1) :
    lr_get (mkGet n O vs (vs.length - 1)) O =
      some (LR_OK, some (vs.getD (vs.length - 1) 0), mkGetDrained n O vs) := by
  set k := vs.length with hkdef
  have hrw : ∀ i, i < n →
      cellAt (mkGet n O vs (k - 1)).cells i = mkGetCell n O vs (k - 1) i :=
    fun i hi => mkGet_cellAt O vs (k - 1) hi
  have hOwner : cellAt (mkGet n O vs (k - 1)).cells (n - 1) =
      ⟨O, some (k - 1)⟩ := by
    rw [hrw (n - 1) (by omega), mkGetCell, if_neg (by omega),
      if_neg (by omega), if_pos rfl]
  have hscan : lr_owner_scan (mkGet n O vs (k - 1)).cells O (n - 1) =
      some (n - 1) :=
    lr_owner_scan_hit (by rw [mkGet_cells_length]; omega) (by rw [hOwner])
  have hck1 : cellAt (mkGet n O vs (k - 1)).cells (k - 1) =
      ⟨vs.getD (k - 1) 0, some (k - 1)⟩ := by
    rw [hrw (k - 1) (by omega), mkGetCell, if_neg (by omega),
      if_pos (by omega), if_pos rfl]
  have hpw : lr_prev_walk (mkGet n O vs (k - 1)).cells (n - 1) (n - 1) =
      n - 1 := lr_prev_walk_stop (by rw [hOwner]; simp)
  have hv : cellAt (setNext (mkGet n O vs (k - 1)).cells (k - 1)
      (some (k - 1))) (k - 1) = ⟨vs.getD (k - 1) 0, some (k - 1)⟩ := by
    rw [cellAt_setNext, if_pos ⟨rfl, by rw [mkGet_cells_length]; omega⟩, hck1]
  have hcs1o : cellAt (setNext (mkGet n O vs (k - 1)).cells (k - 1)
      (some (k - 1))) (n - 1) = ⟨O, some (k - 1)⟩ := by
    rw [cellAt_setNext, if_neg (by omega), hOwner]
  by_cases hk2 : 2 ≤ k
  · have hwv : (mkGet n O vs (k - 1)).write = some (k - 2) := by
      show (if 1 ≤ k - 1 then some (k - 1 - 1) else _) = _
      rw [if_pos (by omega)]
      exact congrArg some (by omega : k - 1 - 1 = k - 2)
    simp only [lr_get, lock_mkGet, mkGet_owners, hscan, mkGet_last_cell,
      eq_self_iff_true, if_true, hpw, hOwner, hck1, lr_owner_tail, hv, hcs1o,
      Option.some.injEq, hwv, mkGet_hasMutex, mkGet_lockDepth, unlock,
      Bool.false_eq_true, if_false]
    refine congrArg (fun s => (LR_OK, some (vs.getD (k - 1) 0), s)) ?_
    apply linked_ring_eq
    · show setData (setNext (setNext (lr_owner_shift (setNext (mkGet n O vs
          (k - 1)).cells (k - 1) (some (k - 1))) (n - 1) (n - 1)) (n - 1)
          (some (k - 2))) (k - 1) (some (n - 1))) (k - 1) 0 =
        (mkGetDrained n O vs).cells
      exact lr_get_last_cells n O vs (some (k - 2)) hn hk1 hk
        (by rw [if_pos hk2])
    all_goals rfl
  · -- a single element: k = 1
    have hk1e : k = 1 := by omega
    by_cases hn3 : 3 ≤ n
    · have hwv : (mkGet n O vs (k - 1)).write = some k := by
        show (if 1 ≤ k - 1 then some (k - 1 - 1)
          else if k < n - 1 then some k else none) = _
        rw [if_neg (by omega), if_pos (by omega)]
      simp only [lr_get, lock_mkGet, mkGet_owners, hscan, mkGet_last_cell,
        eq_self_iff_true, if_true, hpw, hOwner, hck1, lr_owner_tail, hv,
        hcs1o, Option.some.injEq, hwv, mkGet_hasMutex, mkGet_lockDepth,
        unlock, Bool.false_eq_true, if_false]
      refine congrArg (fun s => (LR_OK, some (vs.getD (k - 1) 0), s)) ?_
      apply linked_ring_eq
      · show setData (setNext (setNext (lr_owner_shift (setNext (mkGet n O vs
            (k - 1)).cells (k - 1) (some (k - 1))) (n - 1) (n - 1)) (n - 1)
            (some k)) (k - 1) (some (n - 1))) (k - 1) 0 =
          (mkGetDrained n O vs).cells
        exact lr_get_last_cells n O vs (some k) hn hk1 hk
          (by rw [if_neg hk2, if_pos (by omega)])
      all_goals rfl
    · have hn2 : n = 2 := by omega
      have hwv : (mkGet n O vs (k - 1)).write = none := by
        show (if 1 ≤ k - 1 then some (k - 1 - 1)
          else if k < n - 1 then some k else none) = _
        rw [if_neg (by omega), if_neg (by omega)]
      simp only [lr_get, lock_mkGet, mkGet_owners, hscan, mkGet_last_cell,
        eq_self_iff_true, if_true, hpw, hOwner, hck1, lr_owner_tail, hv,
        hcs1o, Option.some.injEq, hwv, mkGet_hasMutex, mkGet_lockDepth,
        unlock, Bool.false_eq_true, if_false]
      refine congrArg (fun s => (LR_OK, some (vs.getD (k - 1) 0), s)) ?_
      apply linked_ring_eq
      · show setData (setNext (setNext (lr_owner_shift (setNext (mkGet n O vs
            (k - 1)).cells (k - 1) (some (k - 1))) (n - 1) (n - 1)) (n - 1)
            none) (k - 1) (some (n - 1))) (k - 1) 0 =
          (mkGetDrained n O vs).cells
        exact lr_get_last_cells n O vs none hn hk1 hk
          (by rw [if_neg hk2, if_neg (by omega)])
      all_goals rfl

theorem mkPop_lockDepth (n O : Nat) (vs : List Nat) (m : Nat) :
    (mkPop n O vs m).lockDepth = 0 := rfl

theorem mkPop_last_cell (n O : Nat) (vs : List Nat) (m : Nat) :
    lr_last_cell (mkPop n O vs m) = n - 1 := by
  simp [lr_last_cell, linked_ring.size, mkPop]

/-- A non-final `lr_pop` removes the tail cell, repointing the owner record at
its predecessor; the freed cell keeps its payload. -/
theorem lr_pop_step (n O : Nat) (vs : List Nat) (m : Nat)
    (hn : 2 ≤ n) (hm : 2 ≤ m) (hmk : m ≤ vs.length) (hk : vs.length ≤ n - 1) :
    lr_pop (mkPop n O vs m) O =
      some (LR_OK, some (vs.getD (m - 1) 0), mkPop n O vs (m - 1)) := by
  have hrw : ∀ i, i < n →
      cellAt (mkPop n O vs m).cells i = mkPopCell n O vs m i :=
    fun i hi => mkPop_cellAt O vs m hi
  have hOwner : cellAt (mkPop n O vs m).cells (n - 1) = ⟨O, some (m - 1)⟩ :=
    mkPop_owner_cell n O vs (by omega) (by omega)
  have hscan : lr_owner_scan (mkPop n O vs m).cells O (n - 1) = some (n - 1) :=
    lr_owner_scan_hit (by rw [mkPop_cells_length]; omega) (by rw [hOwner])
  have hpwub : lr_prev_walk_ub (mkPop n O vs m).cells (n - 1) = some (n - 1) :=
    lr_prev_walk_ub_stop (by rw [mkPop_cells_length]; omega)
      (by rw [hOwner]; simp)
  have hcm1 : cellAt (mkPop n O vs m).cells (m - 1) =
      ⟨vs.getD (m - 1) 0, some 0⟩ := by
    rw [hrw (m - 1) (by omega), mkPopCell, if_pos (by omega), if_pos rfl]
  have hwalk : lr_pop_walk (mkPop n O vs m).cells (n - 1) (m - 1)
      (n + 1) 0 =
      some (setNext (setNext (mkPop n O vs m).cells (n - 1) (some (m - 2)))
        (m - 2) (some 0)) := by
    have h1 := @lr_pop_walk_chain (mkPop n O vs m).cells
      (n - 1) (m - 1) (n + 1) 0
      (by omega)
      (fun i hi1 hi2 => by
        rw [hrw i (by omega), mkPopCell, if_pos (by omega),
          if_neg (by omega)])
      (by omega)
    rw [h1]
    rw [show m - 1 - 1 = m - 2 from by omega]
    congr 1
    rw [cellAt_setNext, if_neg (by omega), hcm1]
  simp only [lr_pop, lock_mkPop, mkPop_owners, hscan, mkPop_last_cell,
    eq_self_iff_true, if_true, hpwub, hOwner, hcm1, lr_owner_tail,
    Option.some.injEq, show ¬((0 : Nat) = m - 1) from by omega, if_false,
    mkPop_cells_length, hwalk, mkPop_hasMutex, mkPop_lockDepth, unlock,
    Bool.false_eq_true]
  refine congrArg (fun s => (LR_OK, some (vs.getD (m - 1) 0), s)) ?_
  apply linked_ring_eq
  · show setNext (setNext (setNext (mkPop n O vs m).cells (n - 1)
        (some (m - 2))) (m - 2) (some 0)) (m - 1) (mkPop n O vs m).write =
      (mkPop n O vs (m - 1)).cells
    apply cells_ext
    · simp [length_setNext, mkPop_cells_length]
    · intro i hi0
      have hi : i < n := by
        simpa [length_setNext, mkPop_cells_length] using hi0
      simp only [cellAt_setNext, length_setNext, mkPop_cells_length,
        hrw i hi, mkPop_cellAt O vs (m - 1) hi, mkPopCell]
      by_cases h1 : i = n - 1
      · subst h1
        simp [show ¬(m - 1 = n - 1) from by omega,
          show ¬(m - 2 = n - 1) from by omega,
          show (n - 1 : Nat) < n from by omega,
          show ¬(n - 1 < m) from by omega,
          show ¬(n - 1 < m - 1) from by omega,
          show m - 1 - 1 = m - 2 from by omega]
      · by_cases h2 : i = m - 1
        · subst h2
          simp only [show ((m - 1 : Nat) = m - 1) from rfl, and_true,
            eq_self_iff_true, if_true, show (m - 1 : Nat) < n from by omega,
            show ¬(m - 2 = m - 1) from by omega, false_and, if_false,
            show ¬(n - 1 = m - 1) from by omega]
          by_cases hmn : m < n - 1
          · simp [mkPop, if_pos hmn, show ¬(m - 1 = n - 2) from by omega,
              show m - 1 + 1 = m from by omega, show 0 < m from by omega,
              show ¬(m - 1 < m - 1) from by omega,
              show ¬(m - 1 = n - 1) from by omega]
          · simp [mkPop, if_neg hmn, show m - 1 = n - 2 from by omega,
              show 0 < m from by omega, show n - 2 < m from by omega,
              show ¬(m - 1 < m - 1) from by omega,
              show ¬(n - 2 = n - 1) from by omega,
              show ¬(m - 1 = n - 1) from by omega]
        · by_cases h3 : i = m - 2
          · subst h3
            simp [show ¬(n - 1 = m - 2) from by omega,
              show ¬(m - 1 = m - 2) from by omega,
              show (m - 2 : Nat) < n from by omega,
              show (m - 2 : Nat) < m from by omega,
              show (m - 2 : Nat) < m - 1 from by omega,
              show ¬(m - 2 = m - 1) from by omega,
              show m - 1 - 1 = m - 2 from by omega]
          · by_cases h4 : i < m - 2
            · simp [show ¬(n - 1 = i) from by omega,
                show ¬(m - 1 = i) from by omega,
                show ¬(m - 2 = i) from by omega,
                show i < m from by omega, show i < m - 1 from by omega,
                show ¬(i = m - 1) from by omega,
                show ¬(i = m - 1 - 1) from by omega]
            · -- free region: m ≤ i ≤ n - 2
              simp [show ¬(n - 1 = i) from by omega,
                show ¬(m - 1 = i) from by omega,
                show ¬(m - 2 = i) from by omega,
                show ¬(i < m) from by omega,
                show ¬(i < m - 1) from by omega,
                show ¬(i = n - 1) from by omega]
  · show some (m - 1) = (mkPop n O vs (m - 1)).write
    show some (m - 1) = if m - 1 < n - 1 then some (m - 1) else none
    rw [if_pos (by omega)]
  all_goals rfl

/-- The last `lr_pop` of an owner releases the owner record and returns the
final value; the arena ends with no owners and both cells on the free list,
the freed cells keeping their payloads. -/
theorem lr_pop_last (n O : Nat) (vs : List Nat)
    (hn : 2 ≤ n) (hk1 : 1 ≤ vs.length) (hk : vs.length ≤ n - 1) :
    lr_pop (mkPop n O vs 1) O =
      some (LR_OK, some (vs.getD 0 0), mkPopDrained n O vs) := by
  have hrw : ∀ i, i < n →
      cellAt (mkPop n O vs 1).cells i = mkPopCell n O vs 1 i :=
    fun i hi => mkPop_cellAt O vs 1 hi
  have hOwner : cellAt (mkPop n O vs 1).cells (n - 1) = ⟨O, some 0⟩ :=
    mkPop_owner_cell n O vs (by omega) (by omega)
  have hscan : lr_owner_scan (mkPop n O vs 1).cells O (n - 1) = some (n - 1) :=
    lr_owner_scan_hit (by rw [mkPop_cells_length]; omega) (by rw [hOwner])
  have hpwub : lr_prev_walk_ub (mkPop n O vs 1).cells (n - 1) = some (n - 1) :=
    lr_prev_walk_ub_stop (by rw [mkPop_cells_length]; omega)
      (by rw [hOwner]; simp)
  have hc0 : cellAt (mkPop n O vs 1).cells 0 = ⟨vs.getD 0 0, some 0⟩ := by
    rw [hrw 0 (by omega)]; simp [mkPopCell]
  have hshift : ∀ q, q < n →
      cellAt (lr_owner_shift (mkPop n O vs 1).cells (n - 1) (n - 1)) q =
        cellAt (mkPop n O vs 1).cells q := by
    intro q hq
    rw [cellAt_shift _ _ _ _ (by rw [mkPop_cells_length]; omega),
      if_neg (by omega)]
  have hwalk : lr_pop_walk (setNext (lr_owner_shift (mkPop n O vs 1).cells
      (n - 1) (n - 1)) (n - 1) (mkPop n O vs 1).write) (n - 1) 0 (n + 1) 0 =
      some (setNext (lr_owner_shift (mkPop n O vs 1).cells (n - 1) (n - 1))
        (n - 1) (mkPop n O vs 1).write) := by
    rw [lr_pop_walk]
    simp
  simp only [lr_pop, lock_mkPop, mkPop_owners, hscan, mkPop_last_cell,
    eq_self_iff_true, if_true, hpwub, hOwner, hc0, lr_owner_tail,
    Option.some.injEq, ne_eq, not_true, if_false, length_setNext,
    length_shift, mkPop_cells_length, hwalk, mkPop_hasMutex, mkPop_lockDepth,
    unlock, Bool.false_eq_true]
  refine congrArg (fun s => (LR_OK, some (vs.getD 0 0), s)) ?_
  apply linked_ring_eq
  · show setNext (setNext (lr_owner_shift (mkPop n O vs 1).cells (n - 1)
        (n - 1)) (n - 1) (mkPop n O vs 1).write) 0 (some (n - 1)) =
      (mkPopDrained n O vs).cells
    apply cells_ext
    · simp [length_setNext, length_shift, mkPop_cells_length, mkPopDrained]
    · intro i hi0
      have hi : i < n := by
        simpa [length_setNext, length_shift, mkPop_cells_length] using hi0
      simp only [cellAt_setNext, length_setNext, length_shift,
        mkPop_cells_length, hshift i hi, hrw i hi,
        cellAt_map_range (mkPopDrainedCell n O vs) hi, mkPopDrained,
        mkPopCell, mkPopDrainedCell]
      by_cases h1 : i = 0
      · subst h1
        simp [show ¬(n - 1 = 0) from by omega, show (0 : Nat) < n from by omega]
      · by_cases h2 : i = n - 1
        · subst h2
          simp [mkPop, show ¬((0 : Nat) = n - 1) from by omega,
            show ¬(n - 1 = 0) from by omega,
            show (n - 1 : Nat) < n from by omega,
            show ¬(n - 1 < 1) from by omega]
        · -- free region: 1 ≤ i ≤ n - 2, untouched
          simp [show ¬((0 : Nat) = i) from by omega,
            show ¬(n - 1 = i) from by omega, h1, h2,
            show ¬(i < 1) from by omega]
  all_goals rfl

/-! ## Toolkit: list take/drop helpers and iteration unfolding -/

theorem drop_eq_getD_cons (vs : List Nat) {j : Nat} (h : j < vs.length) :
    List.drop j vs = vs.getD j 0 :: List.drop (j + 1) vs := by
  rw [List.getD_eq_getElem?_getD, List.getElem?_eq_getElem h]
  exact List.drop_eq_getElem_cons h

theorem drop_last_eq (vs : List Nat) (h : 1 ≤ vs.length) :
    List.drop (vs.length - 1) vs = [vs.getD (vs.length - 1) 0] := by
  rw [drop_eq_getD_cons vs (by omega)]
  rw [show vs.length - 1 + 1 = vs.length from by omega, List.drop_length]

theorem take_succ_getD (vs : List Nat) {j : Nat} (h : j < vs.length) :
    List.take (j + 1) vs = List.take j vs ++ [vs.getD j 0] := by
  rw [List.take_succ, List.getD_eq_getElem?_getD, List.getElem?_eq_getElem h]
  rfl

theorem lr_get_iter_succ_ok {O c : Nat} {s s' : linked_ring} {v : Nat}
    (h : lr_get s O = some (LR_OK, some v, s')) :
    lr_get_iter O (c + 1) s =
      match lr_get_iter O c s' with
      | some (l, s'') => some (v :: l, s'')
      | none => none := by
  rw [lr_get_iter, h]

theorem lr_pop_iter_succ_ok {O c : Nat} {s s' : linked_ring} {v : Nat}
    (h : lr_pop s O = some (LR_OK, some v, s')) :
    lr_pop_iter O (c + 1) s =
      match lr_pop_iter O c s' with
      | some (l, s'') => some (v :: l, s'')
      | none => none := by
  rw [lr_pop_iter, h]

theorem lr_put_iter_cons_ok {O : Nat} {w : Nat} {ws : List Nat}
    {s s' : linked_ring} (h : lr_put s w O = some (LR_OK, s')) :
    lr_put_iter O (w :: ws) s = lr_put_iter O ws s' := by
  rw [lr_put_iter, h]

/-- Before any `lr_get`, the get-family at `j = 0` is exactly the put-family
at `m = vs.length` (the free cells of the put family hold defaulted
payloads). -/
theorem mkGet_zero (n O : Nat) (vs : List Nat) :
    mkGet n O vs 0 = mkPop n O vs vs.length := by
  apply linked_ring_eq
  · apply cells_ext
    · simp [mkGet, mkPop]
    · intro i hi0
      have hi : i < n := by simpa [mkGet] using hi0
      rw [mkGet_cellAt O vs 0 hi, mkPop_cellAt O vs vs.length hi]
      by_cases h1 : i < vs.length
      · simp [mkGetCell, mkPopCell, h1, show ¬(i < 0) from by omega]
      · by_cases h2 : i = n - 1
        · subst h2
          simp [mkGetCell, mkPopCell, h1, show ¬(n - 1 < 0) from by omega]
        · simp [mkGetCell, mkPopCell, h1, h2, show ¬(i < 0) from by omega]
          rw [List.getElem?_eq_none (show vs.length ≤ i from by omega)]
          rfl
  · show (if 1 ≤ (0 : Nat) then some (0 - 1)
        else if vs.length < n - 1 then some vs.length else none) =
      if vs.length < n - 1 then some vs.length else none
    rw [if_neg (by omega)]
  all_goals rfl

/-- Iterating `lr_put` appends each value at the tail of the live ring. -/
theorem lr_put_iter_mkPop (n O : Nat) : ∀ (ws vs : List Nat),
    2 ≤ n → 1 ≤ vs.length → vs.length + ws.length ≤ n - 1 →
    lr_put_iter O ws (mkPop n O vs vs.length) =
      some (mkPop n O (vs ++ ws) (vs ++ ws).length)
  | [], vs, hn, h1, h2 => by simp [lr_put_iter]
  | w :: ws, vs, hn, h1, h2 => by
    rw [lr_put_iter_cons_ok (lr_put_step n O w vs hn h1 (by
      simp only [List.length_cons] at h2; omega))]
    rw [show (vs.length + 1 : Nat) = (vs ++ [w]).length from by simp]
    rw [lr_put_iter_mkPop n O ws (vs ++ [w]) hn (by simp) (by
      simp only [List.length_append, List.length_cons, List.length_nil] at h2 ⊢
      omega)]
    simp

/-- A sequence of `lr_put`s into a fresh arena produces the canonical
single-owner state holding exactly those values. -/
theorem lr_put_iter_fresh (n O : Nat) (vs : List Nat)
    (hn : 2 ≤ n) (h1 : 1 ≤ vs.length) (hk : vs.length ≤ n - 1) :
    lr_put_iter O vs (freshRing n) = some (mkPop n O vs vs.length) := by
  cases vs with
  | nil => simp at h1
  | cons v rest =>
    rw [lr_put_iter_cons_ok (lr_put_base n O v hn)]
    rw [show (1 : Nat) = ([v] : List Nat).length from rfl]
    rw [lr_put_iter_mkPop n O rest [v] hn (by simp) (by
      simp only [List.length_cons] at hk ⊢
      simp
      omega)]
    simp

/-- Draining an owner with repeated `lr_get`s from position `j` returns the
remaining values in order and ends in the drained state. -/
theorem lr_get_iter_mkGet (n O : Nat) (vs : List Nat) :
    ∀ (c j : Nat), 2 ≤ n → vs.length ≤ n - 1 → j + c = vs.length → 1 ≤ c →
    lr_get_iter O c (mkGet n O vs j) =
      some (List.drop j vs, mkGetDrained n O vs)
  | 0, j, hn, hk, hj, hc => absurd hc (by omega)
  | 1, j, hn, hk, hj, hc => by
    have hj1 : j = vs.length - 1 := by omega
    subst hj1
    rw [lr_get_iter_succ_ok (lr_get_last n O vs hn (by omega) hk)]
    rw [drop_last_eq vs (by omega)]
    rfl
  | c + 2, j, hn, hk, hj, hc => by
    rw [lr_get_iter_succ_ok (lr_get_step n O vs j hn hk (by omega))]
    rw [lr_get_iter_mkGet n O vs (c + 1) (j + 1) hn hk (by omega) (by omega)]
    rw [drop_eq_getD_cons vs (show j < vs.length from by omega)]

/-- FIFO drain: `lr_get` applied `|vs|` times to the single-owner state
returns the values in insertion order. -/
theorem lr_get_iter_full (n O : Nat) (vs : List Nat)
    (hn : 2 ≤ n) (h1 : 1 ≤ vs.length) (hk : vs.length ≤ n - 1) :
    lr_get_iter O vs.length (mkPop n O vs vs.length) =
      some (vs, mkGetDrained n O vs) := by
  rw [← mkGet_zero]
  have h := lr_get_iter_mkGet n O vs vs.length 0 hn hk (by omega) (by omega)
  simpa using h

/-- Draining an owner with repeated `lr_pop`s returns the last `m` live
values in reverse order and ends in the pop-drained state. -/
theorem lr_pop_iter_mkPop (n O : Nat) (vs : List Nat) :
    ∀ (m : Nat), 2 ≤ n → 1 ≤ m → m ≤ vs.length → vs.length ≤ n - 1 →
    lr_pop_iter O m (mkPop n O vs m) =
      some ((List.take m vs).reverse, mkPopDrained n O vs)
  | 0, hn, hm, hmk, hk => absurd hm (by omega)
  | 1, hn, hm, hmk, hk => by
    rw [lr_pop_iter_succ_ok (lr_pop_last n O vs hn (by omega) hk)]
    rw [take_succ_getD vs (show 0 < vs.length from by omega)]
    simp
    rfl
  | m + 2, hn, hm, hmk, hk => by
    rw [lr_pop_iter_succ_ok (lr_pop_step n O vs (m + 2) hn (by omega)
      hmk hk)]
    rw [show (m + 2 - 1 : Nat) = m + 1 from rfl]
    rw [lr_pop_iter_mkPop n O vs (m + 1) hn (by omega) (by omega) hk]
    rw [take_succ_getD vs (show m + 1 < vs.length from by omega)]
    simp

/-- LIFO drain: `lr_pop` applied `|vs|` times to the single-owner state
returns the values in reverse insertion order. -/
theorem lr_pop_iter_full (n O : Nat) (vs : List Nat)
    (hn : 2 ≤ n) (h1 : 1 ≤ vs.length) (hk : vs.length ≤ n - 1) :
    lr_pop_iter O vs.length (mkPop n O vs vs.length) =
      some (vs.reverse, mkPopDrained n O vs) := by
  have h := lr_pop_iter_mkPop n O vs vs.length hn (by omega) (by omega) hk
  rwa [List.take_length] at h

/-! ## Reading and counting on the single-owner family -/

theorem mkPop_head (n O : Nat) (vs : List Nat) (m : Nat)
    (hn : 2 ≤ n) (hm : 1 ≤ m) (hk : m ≤ n - 1) :
    lr_owner_head (mkPop n O vs m) (n - 1) = some 0 := by
  have hOwner : cellAt (mkPop n O vs m).cells (n - 1) = ⟨O, some (m - 1)⟩ :=
    mkPop_owner_cell n O vs (by omega) (by omega)
  have hcm1 : cellAt (mkPop n O vs m).cells (m - 1) =
      ⟨vs.getD (m - 1) 0, some 0⟩ := by
    rw [mkPop_cellAt O vs m (by omega), mkPopCell, if_pos (by omega),
      if_pos rfl]
  simp only [lr_owner_head, mkPop_last_cell, eq_self_iff_true, if_true,
    mkPop_owners, hOwner, hcm1]

theorem mkPop_tail (n O : Nat) (vs : List Nat) (m : Nat)
    (hn : 2 ≤ n) (hm : 1 ≤ m) (hk : m ≤ n - 1) :
    lr_owner_tail (mkPop n O vs m).cells (n - 1) = some (m - 1) := by
  have hOwner : cellAt (mkPop n O vs m).cells (n - 1) = ⟨O, some (m - 1)⟩ :=
    mkPop_owner_cell n O vs (by omega) (by omega)
  rw [lr_owner_tail, hOwner]

theorem mkPop_ring_chain (n O : Nat) (vs : List Nat) (m : Nat) (hmn : m ≤ n) :
    ∀ i, i < m - 1 → (cellAt (mkPop n O vs m).cells i).next = some (i + 1) :=
  fun i hi => by
    rw [mkPop_cellAt O vs m (by omega), mkPopCell, if_pos (by omega),
      if_neg (by omega)]

theorem mkPop_ring_data (n O : Nat) (vs : List Nat) {m i : Nat}
    (hi : i < m) (hn : m ≤ n) :
    (cellAt (mkPop n O vs m).cells i).data = vs.getD i 0 := by
  rw [mkPop_cellAt O vs m (by omega), mkPopCell, if_pos (by omega)]

/-- Reading at an in-range index returns the `index`-th element of the
owner's sub-list (head first) and leaves the state unchanged. -/
theorem lr_read_at_mkPop_ok (n O : Nat) (vs : List Nat) (m idx : Nat)
    (hn : 2 ≤ n) (hm : 1 ≤ m) (hk : m ≤ n - 1) (hidx : idx < m) :
    lr_read_at (mkPop n O vs m) O idx =
      some (LR_OK, some (vs.getD idx 0), mkPop n O vs m) := by
  have hOwner : cellAt (mkPop n O vs m).cells (n - 1) = ⟨O, some (m - 1)⟩ :=
    mkPop_owner_cell n O vs (by omega) (by omega)
  have hscan : lr_owner_scan (mkPop n O vs m).cells O (n - 1) = some (n - 1) :=
    lr_owner_scan_hit (by rw [mkPop_cells_length]; omega) (by rw [hOwner])
  have hwalk : lr_index_walk (mkPop n O vs m).cells (m - 1) 0 idx =
      some (some ((cellAt (mkPop n O vs m).cells (0 + idx)).data)) :=
    lr_index_walk_ok idx 0
      (fun i hi1 hi2 => mkPop_ring_chain n O vs m (by omega) i (by omega)) (by omega)
  have hdata : (cellAt (mkPop n O vs m).cells (0 + idx)).data =
      vs.getD idx 0 := by
    rw [show 0 + idx = idx from by omega]
    exact mkPop_ring_data n O vs hidx (by omega)
  rw [hdata] at hwalk
  simp only [lr_read_at, lock_mkPop, mkPop_owners, hscan,
    mkPop_head n O vs m hn hm hk, mkPop_tail n O vs m hn hm hk, hwalk,
    unlock, mkPop_hasMutex, Bool.false_eq_true, if_false]

/-- Reading at an out-of-range index reports the invalid-index code. -/
theorem lr_read_at_mkPop_invalid (n O : Nat) (vs : List Nat) (m idx : Nat)
    (hn : 2 ≤ n) (hm : 1 ≤ m) (hk : m ≤ n - 1) (hidx : m ≤ idx) :
    lr_read_at (mkPop n O vs m) O idx =
      some (LR_ERROR_INVALID_INDEX, none, mkPop n O vs m) := by
  have hOwner : cellAt (mkPop n O vs m).cells (n - 1) = ⟨O, some (m - 1)⟩ :=
    mkPop_owner_cell n O vs (by omega) (by omega)
  have hscan : lr_owner_scan (mkPop n O vs m).cells O (n - 1) = some (n - 1) :=
    lr_owner_scan_hit (by rw [mkPop_cells_length]; omega) (by rw [hOwner])
  have hwalk : lr_index_walk (mkPop n O vs m).cells (m - 1) 0 idx =
      some none :=
    lr_index_walk_invalid idx 0
      (fun i hi1 hi2 => mkPop_ring_chain n O vs m (by omega) i (by omega))
      (by omega) (by omega)
  simp only [lr_read_at, lock_mkPop, mkPop_owners, hscan,
    mkPop_head n O vs m hn hm hk, mkPop_tail n O vs m hn hm hk, hwalk,
    unlock, mkPop_hasMutex, Bool.false_eq_true, if_false]

/-- `lr_read` returns the head element (the oldest `lr_put`). -/
theorem lr_read_mkPop (n O : Nat) (vs : List Nat) (m : Nat)
    (hn : 2 ≤ n) (hm : 1 ≤ m) (hk : m ≤ n - 1) :
    lr_read (mkPop n O vs m) O =
      some (LR_OK, some (vs.getD 0 0), mkPop n O vs m) :=
  lr_read_at_mkPop_ok n O vs m 0 hn hm hk (by omega)

/-- `lr_count_owned` (i.e. `lr_count_limited_owned` with limit `0`) reports
exactly the number of live cells of the owner. -/
theorem lr_count_owned_mkPop (n O : Nat) (vs : List Nat) (m : Nat)
    (hn : 2 ≤ n) (hm : 1 ≤ m) (hk : m ≤ n - 1) :
    lr_count_owned (mkPop n O vs m) O = some (m, mkPop n O vs m) := by
  have hOwner : cellAt (mkPop n O vs m).cells (n - 1) = ⟨O, some (m - 1)⟩ :=
    mkPop_owner_cell n O vs (by omega) (by omega)
  have hscan : lr_owner_scan (mkPop n O vs m).cells O (n - 1) = some (n - 1) :=
    lr_owner_scan_hit (by rw [mkPop_cells_length]; omega) (by rw [hOwner])
  have hwalk : lr_count_walk (mkPop n O vs m).cells (some (m - 1)) 0
      (n + 1) (some 0) 1 = some (1 + (m - 1 - 0)) :=
    lr_count_walk_chain (n + 1) 0 1 (by omega)
      (fun i hi1 hi2 => mkPop_ring_chain n O vs m (by omega) i (by omega)) (by omega)
  rw [show (1 + (m - 1 - 0) : Nat) = m from by omega] at hwalk
  simp only [lr_count_owned, lr_count_limited_owned, lock_mkPop, mkPop_owners,
    hscan, mkPop_head n O vs m hn hm hk, mkPop_tail n O vs m hn hm hk,
    mkPop_cells_length, hwalk, unlock, mkPop_hasMutex, Bool.false_eq_true,
    if_false]

/-! ## String round-trip on the single-owner family -/

theorem lr_put_string_cons_ok {O w : Nat} {ws : List Nat}
    {s s' : linked_ring} (hw : w ≠ 0) (h : lr_put s w O = some (LR_OK, s')) :
    lr_put_string s (w :: ws) O = lr_put_string s' ws O := by
  show (if w = 0 then some (LR_OK, s)
    else
      match lr_put s w O with
      | none => none
      | some (r, lr1) =>
        if r = LR_ERROR_BUFFER_FULL then some (LR_ERROR_BUFFER_FULL, lr1)
        else lr_put_string lr1 ws O) = lr_put_string s' ws O
  rw [if_neg hw, h]
  rfl

theorem lr_put_string_mkPop (n O : Nat) : ∀ (ws vs : List Nat),
    2 ≤ n → 1 ≤ vs.length → vs.length + ws.length ≤ n - 1 →
    (∀ b ∈ ws, b ≠ 0) →
    lr_put_string (mkPop n O vs vs.length) ws O =
      some (LR_OK, mkPop n O (vs ++ ws) (vs ++ ws).length)
  | [], vs, hn, h1, h2, hz => by simp [lr_put_string]
  | w :: ws, vs, hn, h1, h2, hz => by
    rw [lr_put_string_cons_ok (hz w (by simp)) (lr_put_step n O w vs hn h1
      (by simp only [List.length_cons] at h2; omega))]
    rw [show (vs.length + 1 : Nat) = (vs ++ [w]).length from by simp]
    rw [lr_put_string_mkPop n O ws (vs ++ [w]) hn (by simp) (by
      simp only [List.length_append, List.length_cons, List.length_nil] at h2 ⊢
      omega) (fun b hb => hz b (by simp [hb]))]
    simp

/-- `lr_put_string` of a zero-free byte string into a fresh arena stores the
bytes in order for the owner. -/
theorem lr_put_string_fresh (n O : Nat) (s : List Nat)
    (hn : 2 ≤ n) (h1 : 1 ≤ s.length) (hk : s.length ≤ n - 1)
    (hz : ∀ b ∈ s, b ≠ 0) :
    lr_put_string (freshRing n) s O = some (LR_OK, mkPop n O s s.length) := by
  cases s with
  | nil => simp at h1
  | cons v rest =>
    rw [lr_put_string_cons_ok (hz v (by simp)) (lr_put_base n O v hn)]
    rw [show (1 : Nat) = ([v] : List Nat).length from rfl]
    rw [lr_put_string_mkPop n O rest [v] hn (by simp) (by
      simp only [List.length_cons] at hk ⊢
      simp
      omega) (fun b hb => hz b (by simp [hb]))]
    simp

/-- `lr_read_string` on the single-owner state returns all stored bytes in
order, zero-terminated, reporting the byte count. -/
theorem lr_read_string_mkPop (n O : Nat) (vs : List Nat)
    (hn : 2 ≤ n) (h1 : 1 ≤ vs.length) (hk : vs.length ≤ n - 1)
    (hz : vs.getD 0 0 ≠ 0) :
    lr_read_string (mkPop n O vs vs.length) O =
      some (LR_OK, vs ++ [0], vs.length, mkPop n O vs vs.length) := by
  set k := vs.length with hkdef
  have hOwner : cellAt (mkPop n O vs k).cells (n - 1) = ⟨O, some (k - 1)⟩ :=
    mkPop_owner_cell n O vs (by omega) (by omega)
  have hscan : lr_owner_scan (mkPop n O vs k).cells O (n - 1) = some (n - 1) :=
    lr_owner_scan_hit (by rw [mkPop_cells_length]; omega) (by rw [hOwner])
  have hck1 : cellAt (mkPop n O vs k).cells (k - 1) =
      ⟨vs.getD (k - 1) 0, some 0⟩ := by
    rw [mkPop_cellAt O vs k (by omega), mkPopCell, if_pos (by omega),
      if_pos rfl]
  have hwalk : lr_string_walk (mkPop n O vs k).cells (some 0) (n + 1) 0 [] =
      some ([] ++ (List.range' 0 (k - 1 - 0 + 1)).map
        (fun i => (cellAt (mkPop n O vs k).cells i).data)) :=
    lr_string_walk_chain (n + 1) 0 [] (by omega)
      (fun i hi1 hi2 => mkPop_ring_chain n O vs k (by omega) i (by omega))
      (by rw [hck1])
      (fun i hi1 hi2 => by simp; omega)
      (by omega)
  have hmap : ([] ++ (List.range' 0 (k - 1 - 0 + 1)).map
      (fun i => (cellAt (mkPop n O vs k).cells i).data)) = vs := by
    rw [List.nil_append, show k - 1 - 0 + 1 = k from by omega]
    rw [show (List.range' 0 k).map
        (fun i => (cellAt (mkPop n O vs k).cells i).data) =
      (List.range' 0 k).map (fun i => vs.getD i 0) from
      List.map_congr_left (fun i hi => by
        have h' := List.mem_range'_1.mp hi
        exact mkPop_ring_data n O vs (by omega) (by omega))]
    exact hkdef ▸ range'_map_getD vs
  rw [hmap] at hwalk
  have hcond : ¬((some 0 : Option Nat) = some (k - 1) ∧
      vs.getD (k - 1) 0 = 0) := by
    rintro ⟨hc1, hc2⟩
    have hk1 : k = 1 := by
      have := Option.some.inj hc1
      omega
    rw [hk1] at hc2
    norm_num at hc2
    exact hz (by rw [List.getD_eq_getElem?_getD]; exact hc2)
  simp only [lr_read_string, lock_mkPop, mkPop_owners, hscan,
    mkPop_head n O vs k hn (by omega) hk, mkPop_tail n O vs k hn (by omega) hk,
    hck1, if_neg hcond, mkPop_cells_length, hwalk, unlock, mkPop_hasMutex,
    Bool.false_eq_true, if_false]

/-! ## Missing-owner and out-of-range behaviour -/

theorem mkPop_scan_miss (n O : Nat) (vs : List Nat) (m P : Nat)
    (hn : 1 ≤ n) (hm : m ≤ n - 1) (hP : P ≠ O) :
    lr_owner_scan (mkPop n O vs m).cells P (n - 1) = none := by
  rw [lr_owner_scan_unfold, if_pos (by rw [mkPop_cells_length]; omega)]
  simp only [mkPop_owner_cell n O vs hm hn]
  rw [if_neg (fun h => hP h.symm)]
  rw [lr_owner_scan_unfold, if_neg (by rw [mkPop_cells_length]; omega)]

/-- `lr_get` for an owner id with no record reports `BufferEmpty` and leaves
the state unchanged. -/
theorem lr_get_mkPop_noOwner (n O : Nat) (vs : List Nat) (m P : Nat)
    (hn : 1 ≤ n) (hm : m ≤ n - 1) (hP : P ≠ O) :
    lr_get (mkPop n O vs m) P =
      some (LR_ERROR_BUFFER_EMPTY, none, mkPop n O vs m) := by
  simp only [lr_get, lock_mkPop, mkPop_owners,
    mkPop_scan_miss n O vs m P hn hm hP, unlock, mkPop_hasMutex,
    Bool.false_eq_true, if_false]

/-- `lr_pop` for an owner id with no record reports `BufferEmpty` (the C
returns without unlocking there; the mutex-free state is unchanged). -/
theorem lr_pop_mkPop_noOwner (n O : Nat) (vs : List Nat) (m P : Nat)
    (hn : 1 ≤ n) (hm : m ≤ n - 1) (hP : P ≠ O) :
    lr_pop (mkPop n O vs m) P =
      some (LR_ERROR_BUFFER_EMPTY, none, mkPop n O vs m) := by
  simp only [lr_pop, lock_mkPop, mkPop_owners,
    mkPop_scan_miss n O vs m P hn hm hP]

/-- `lr_pull` for an owner id with no record reports `BufferEmpty`. -/
theorem lr_pull_mkPop_noOwner (n O : Nat) (vs : List Nat) (m idx P : Nat)
    (hn : 1 ≤ n) (hm : m ≤ n - 1) (hP : P ≠ O) :
    lr_pull (mkPop n O vs m) P idx =
      some (LR_ERROR_BUFFER_EMPTY, none, mkPop n O vs m) := by
  simp only [lr_pull, lock_mkPop, mkPop_owners,
    mkPop_scan_miss n O vs m P hn hm hP, unlock, mkPop_hasMutex,
    Bool.false_eq_true, if_false]

theorem lr_pull_walk_chain {cs : List lr_cell} {tail head : Nat} :
    ∀ (rem ν : Nat), ν < tail →
      (∀ i, ν ≤ i → i < tail → (cellAt cs i).next = some (i + 1)) →
      (∀ i, ν < i → i < tail → i ≠ head) →
      tail - 1 - ν < rem →
      lr_pull_walk cs tail head ν rem =
        some (tail - 1, rem - (tail - 1 - ν)) := by
  intro rem
  induction rem with
  | zero => intro ν h1 h2 h3 h4; omega
  | succ r ih =>
    intro ν h1 hch hnh h4
    rw [lr_pull_walk]
    simp only [hch ν le_rfl h1]
    by_cases he : ν + 1 = tail
    · rw [if_pos (Or.inl he)]
      refine congrArg some ?_
      rw [show tail - 1 - ν = 0 from by omega, show tail - 1 = ν from by omega,
        Nat.sub_zero]
    · rw [if_neg (by
        rintro (hc | hc)
        · exact he hc
        · exact hnh (ν + 1) (by omega) (by omega) hc)]
      rw [ih (ν + 1) (by omega) (fun i hi1 hi2 => hch i (by omega) hi2)
        (fun i hi1 hi2 => hnh i (by omega) hi2) (by omega)]
      exact congrArg some (by
        rw [show r - (tail - 1 - (ν + 1)) = r + 1 - (tail - 1 - ν) from
          by omega])

/-- `lr_pull` with an index at or beyond the sub-list length reports
`LR_ERROR_BUFFER_EMPTY` - not the invalid-index code - and leaves the state
unchanged. -/
theorem lr_pull_mkPop_outOfRange (n O : Nat) (vs : List Nat) (m idx : Nat)
    (hn : 2 ≤ n) (hm : 2 ≤ m) (hk : m ≤ n - 1) (hidx : m ≤ idx) :
    lr_pull (mkPop n O vs m) O idx =
      some (LR_ERROR_BUFFER_EMPTY, none, mkPop n O vs m) := by
  have hOwner : cellAt (mkPop n O vs m).cells (n - 1) = ⟨O, some (m - 1)⟩ :=
    mkPop_owner_cell n O vs (by omega) (by omega)
  have hscan : lr_owner_scan (mkPop n O vs m).cells O (n - 1) = some (n - 1) :=
    lr_owner_scan_hit (by rw [mkPop_cells_length]; omega) (by rw [hOwner])
  have hpw : lr_prev_walk (mkPop n O vs m).cells (n - 1) (n - 1) = n - 1 :=
    lr_prev_walk_stop (by rw [hOwner]; simp)
  have hcm1 : cellAt (mkPop n O vs m).cells (m - 1) =
      ⟨vs.getD (m - 1) 0, some 0⟩ := by
    rw [mkPop_cellAt O vs m (by omega), mkPopCell, if_pos (by omega),
      if_pos rfl]
  have hwalk : lr_pull_walk (mkPop n O vs m).cells (m - 1) 0 0 (idx - 1) =
      some (m - 1 - 1, idx - 1 - (m - 1 - 1 - 0)) :=
    lr_pull_walk_chain (idx - 1) 0 (by omega)
      (fun i hi1 hi2 => mkPop_ring_chain n O vs m (by omega) i (by omega))
      (fun i hi1 hi2 => by omega) (by omega)
  simp only [lr_pull, lock_mkPop, mkPop_owners, hscan, mkPop_last_cell,
    eq_self_iff_true, if_true, hpw, hOwner, hcm1, lr_owner_tail,
    show ¬((0 : Nat) = m - 1) from by omega, if_false,
    show ¬(idx = 0) from by omega, hwalk,
    if_pos (show 0 < idx - 1 - (m - 1 - 1 - 0) from by omega), unlock,
    mkPop_hasMutex, Bool.false_eq_true]

/-- With exactly one free cell left, an insertion for a brand-new owner id is
refused with `BufferFull` and the arena is unchanged (the free cell cannot
hold both the owner record and the data). -/
theorem lr_put_mkPop_newOwner_full (n O : Nat) (vs : List Nat) (v P : Nat)
    (hn : 3 ≤ n) (hP : P ≠ O) :
    lr_put (mkPop n O vs (n - 2)) v P =
      some (LR_ERROR_BUFFER_FULL, mkPop n O vs (n - 2)) := by
  have hw : (mkPop n O vs (n - 2)).write = some (n - 2) := by
    show (if n - 2 < n - 1 then some (n - 2) else none) = some (n - 2)
    rw [if_pos (by omega)]
  have hfree : cellAt (mkPop n O vs (n - 2)).cells (n - 2) =
      ⟨vs.getD (n - 2) 0, none⟩ := by
    rw [mkPop_cellAt O vs (n - 2) (by omega), mkPopCell, if_neg (by omega),
      if_neg (by omega), if_pos rfl]
  simp only [lr_put, lock_mkPop, hw, lr_owner_get, lr_owner_find,
    mkPop_owners, mkPop_scan_miss n O vs (n - 2) P (by omega) (by omega) hP,
    hfree, eq_self_iff_true, if_true, unlock, mkPop_hasMutex,
    Bool.false_eq_true, if_false]

/-! ## Resizing the single-owner family -/

theorem mkPop_owners_count (n O : Nat) (vs : List Nat) (m : Nat)
    (hn : 1 ≤ n) : lr_owners_count (mkPop n O vs m) = 1 := by
  simp only [lr_owners_count, mkPop_owners, linked_ring.size,
    mkPop_cells_length]
  omega

/-- `lr_resize` of the single-owner state (with at least one free cell) into
a no-smaller new array produces exactly the resized family: live ring and
copied cells at their old indices, ascending free chain through the new
cells, owner record at the top. -/
theorem lr_resize_mkPop (n O : Nat) (vs : List Nat) (m : Nat)
    (mem : List lr_cell) (ub : Nat)
    (hn : 2 ≤ n) (hm : 1 ≤ m) (hk : m ≤ n - 2) (hM : n ≤ mem.length) :
    lr_resize (mkPop n O vs m) false mem ub =
      some (LR_OK, mkResized n O vs m mem) := by
  have hoc := mkPop_owners_count n O vs m (by omega)
  have hsz : (mkPop n O vs m).size = n := by
    simp [linked_ring.size, mkPop_cells_length]
  have hrw : ∀ i, i < n →
      cellAt (mkPop n O vs m).cells i = mkPopCell n O vs m i :=
    fun i hi => mkPop_cellAt O vs m hi
  simp only [lr_resize, Bool.false_eq_true, false_or, hoc, hsz,
    if_neg (show ¬(mem.length = 0) from by omega),
    if_neg (show ¬(n - 1 = 0) from by omega),
    show (0 : Nat) < 1 from by omega, if_true, eq_self_iff_true, true_and]
  refine congrArg (fun s => some (LR_OK, s)) ?_
  apply linked_ring_eq
  · apply cells_ext
    · simp [mkResized]
    · intro i hi0
      have hi : i < mem.length := by simpa using hi0
      rw [cellAt_map_range _ hi]
      rw [show (mkResized n O vs m mem).cells =
        (List.range mem.length).map (mkResizedCell n O vs m mem) from rfl,
        cellAt_map_range _ hi]
      by_cases hA : i < m
      · -- live ring cell, copied verbatim
        simp [mkPopCell, mkResizedCell, lr_ptr_sub, hrw i (by omega), hA,
          show ¬(mem.length - 1 ≤ i) from by omega,
          show ¬(n - 1 - 1 ≤ i) from by omega,
          show i < n - 1 from by omega]
      · by_cases hB : i < n - 2
        · -- copied free cell below the loop-3 region
          simp [mkPopCell, mkResizedCell, lr_ptr_sub, hrw i (by omega), hA,
            show ¬(mem.length - 1 ≤ i) from by omega,
            show ¬(n - 1 - 1 ≤ i) from by omega,
            show i < n - 1 from by omega,
            show ¬(i = n - 1) from by omega,
            show ¬(i = n - 2) from by omega,
            show ¬(i = mem.length - 1) from by omega,
            show i ≤ n - 2 from by omega,
            show ¬(i = mem.length - 2) from by omega]
        · by_cases hC : i = n - 2
          · -- the old last free cell: start of the re-threaded chain
            subst hC
            simp [mkPopCell, mkResizedCell, hrw (n - 2) (by omega), hA,
              show ¬(mem.length - 1 ≤ n - 2) from by omega,
              show (n - 1 - 1 : Nat) ≤ n - 2 from by omega,
              show (n - 2 : Nat) < mem.length - 1 from by omega,
              show (n - 2 : Nat) < n - 1 from by omega,
              show ¬(n - 2 = n - 1) from by omega,
              show ¬(n - 2 = mem.length - 1) from by omega,
              show (n - 2 : Nat) ≤ n - 2 from by omega,
              show mem.length - 1 - 1 = mem.length - 2 from by omega]
          · by_cases hD : i < mem.length - 1
            · -- brand-new cell threaded into the free chain
              simp [mkResizedCell, hA,
                show ¬(mem.length - 1 ≤ i) from by omega,
                show (n - 1 - 1 : Nat) ≤ i from by omega, hD,
                show ¬(i < n - 1) from by omega,
                show ¬(i = mem.length - 1) from by omega,
                show ¬(i ≤ n - 2) from by omega,
                show mem.length - 1 - 1 = mem.length - 2 from by omega]
            · -- the relocated owner record
              have hE : i = mem.length - 1 := by omega
              subst hE
              simp [mkPopCell, mkResizedCell, lr_ptr_sub,
                hrw (n - 1) (by omega),
                show mem.length - 1 - (mem.length - 1) = 0 from by omega,
                show ¬(mem.length - 1 < m) from by omega,
                show ¬(n - 1 < m) from by omega]
  · show some (n - 1 - 1) = (mkResized n O vs m mem).write
    show some (n - 1 - 1) = some (n - 2)
    exact congrArg some (by omega)
  all_goals rfl

theorem mkResized_cells_length (n O : Nat) (vs : List Nat) (m : Nat)
    (mem : List lr_cell) :
    (mkResized n O vs m mem).cells.length = mem.length := by
  simp [mkResized]

theorem mkResized_cellAt (n O : Nat) (vs : List Nat) (m : Nat)
    (mem : List lr_cell) {i : Nat} (h : i < mem.length) :
    cellAt (mkResized n O vs m mem).cells i = mkResizedCell n O vs m mem i :=
  cellAt_map_range _ h

theorem mkResized_owners (n O : Nat) (vs : List Nat) (m : Nat)
    (mem : List lr_cell) :
    (mkResized n O vs m mem).owners = some (mem.length - 1) := rfl

theorem mkResized_hasMutex (n O : Nat) (vs : List Nat) (m : Nat)
    (mem : List lr_cell) : (mkResized n O vs m mem).hasMutex = false := rfl

theorem lock_mkResized (n O : Nat) (vs : List Nat) (m : Nat)
    (mem : List lr_cell) :
    lock (mkResized n O vs m mem) = mkResized n O vs m mem := by
  simp [lock, mkResized]

theorem mkResized_last_cell (n O : Nat) (vs : List Nat) (m : Nat)
    (mem : List lr_cell) :
    lr_last_cell (mkResized n O vs m mem) = mem.length - 1 := by
  simp [lr_last_cell, linked_ring.size, mkResized]

theorem mkResized_owner_cell (n O : Nat) (vs : List Nat) (m : Nat)
    (mem : List lr_cell) (hn : 2 ≤ n) (hm : 1 ≤ m) (hk : m ≤ n - 2)
    (hM : n ≤ mem.length) :
    cellAt (mkResized n O vs m mem).cells (mem.length - 1) =
      ⟨O, some (m - 1)⟩ := by
  rw [mkResized_cellAt n O vs m mem (by omega), mkResizedCell,
    if_neg (by omega), if_pos rfl]

theorem mkResized_ring_chain (n O : Nat) (vs : List Nat) (m : Nat)
    (mem : List lr_cell) (hk : m ≤ n - 2) (hM : n ≤ mem.length) :
    ∀ i, i < m - 1 →
      (cellAt (mkResized n O vs m mem).cells i).next = some (i + 1) :=
  fun i hi => by
    rw [mkResized_cellAt n O vs m mem (by omega), mkResizedCell,
      if_pos (by omega), if_neg (by omega)]

theorem mkResized_ring_data (n O : Nat) (vs : List Nat) (m : Nat)
    (mem : List lr_cell) (hk : m ≤ n - 2) (hM : n ≤ mem.length) {i : Nat}
    (hi : i < m) :
    (cellAt (mkResized n O vs m mem).cells i).data = vs.getD i 0 := by
  rw [mkResized_cellAt n O vs m mem (by omega), mkResizedCell,
    if_pos (by omega)]

theorem mkResized_head (n O : Nat) (vs : List Nat) (m : Nat)
    (mem : List lr_cell) (hn : 2 ≤ n) (hm : 1 ≤ m) (hk : m ≤ n - 2)
    (hM : n ≤ mem.length) :
    lr_owner_head (mkResized n O vs m mem) (mem.length - 1) = some 0 := by
  have hOwner := mkResized_owner_cell n O vs m mem hn hm hk hM
  have hcm1 : cellAt (mkResized n O vs m mem).cells (m - 1) =
      ⟨vs.getD (m - 1) 0, some 0⟩ := by
    rw [mkResized_cellAt n O vs m mem (by omega), mkResizedCell,
      if_pos (by omega), if_pos rfl]
  simp only [lr_owner_head, mkResized_last_cell, eq_self_iff_true, if_true,
    mkResized_owners, hOwner, hcm1]

theorem mkResized_tail (n O : Nat) (vs : List Nat) (m : Nat)
    (mem : List lr_cell) (hn : 2 ≤ n) (hm : 1 ≤ m) (hk : m ≤ n - 2)
    (hM : n ≤ mem.length) :
    lr_owner_tail (mkResized n O vs m mem).cells (mem.length - 1) =
      some (m - 1) := by
  rw [lr_owner_tail, mkResized_owner_cell n O vs m mem hn hm hk hM]

/-- After the resize, reading any in-range index of the owner returns the
same value the old state held there: the (owner id, ordered data sequence)
pair is preserved. -/
theorem lr_read_at_mkResized_ok (n O : Nat) (vs : List Nat) (m : Nat)
    (mem : List lr_cell) (idx : Nat)
    (hn : 2 ≤ n) (hm : 1 ≤ m) (hk : m ≤ n - 2) (hM : n ≤ mem.length)
    (hidx : idx < m) :
    lr_read_at (mkResized n O vs m mem) O idx =
      some (LR_OK, some (vs.getD idx 0), mkResized n O vs m mem) := by
  have hOwner := mkResized_owner_cell n O vs m mem hn hm hk hM
  have hscan : lr_owner_scan (mkResized n O vs m mem).cells O
      (mem.length - 1) = some (mem.length - 1) :=
    lr_owner_scan_hit (by rw [mkResized_cells_length]; omega)
      (by rw [hOwner])
  have hwalk : lr_index_walk (mkResized n O vs m mem).cells (m - 1) 0 idx =
      some (some ((cellAt (mkResized n O vs m mem).cells (0 + idx)).data)) :=
    lr_index_walk_ok idx 0
      (fun i hi1 hi2 => mkResized_ring_chain n O vs m mem hk hM i (by omega))
      (by omega)
  have hdata : (cellAt (mkResized n O vs m mem).cells (0 + idx)).data =
      vs.getD idx 0 := by
    rw [show 0 + idx = idx from by omega]
    exact mkResized_ring_data n O vs m mem hk hM hidx
  rw [hdata] at hwalk
  simp only [lr_read_at, lock_mkResized, mkResized_owners, hscan,
    mkResized_head n O vs m mem hn hm hk hM,
    mkResized_tail n O vs m mem hn hm hk hM, hwalk,
    unlock, mkResized_hasMutex, Bool.false_eq_true, if_false]

/-- The free list of the resized state is re-threaded through all unused
cells: ascending from the write position through every new cell. -/
theorem mkResized_free_chain (n O : Nat) (vs : List Nat) (m : Nat)
    (mem : List lr_cell) (hk : m ≤ n - 2) (hM : n ≤ mem.length) :
    ∀ i, n - 2 ≤ i → i < mem.length - 2 →
      (cellAt (mkResized n O vs m mem).cells i).next = some (i + 1) :=
  fun i hi1 hi2 => by
    rw [mkResized_cellAt n O vs m mem (by omega), mkResizedCell,
      if_neg (by omega), if_neg (by omega)]
    by_cases hc : i ≤ n - 2
    · rw [if_pos hc, if_neg (by omega)]
    · rw [if_neg hc, if_neg (by omega)]

/-- The re-threaded free list terminates in `NULL` at the last unused cell. -/
theorem mkResized_free_end (n O : Nat) (vs : List Nat) (m : Nat)
    (mem : List lr_cell) (hn : 2 ≤ n) (hk : m ≤ n - 2) (hM : n ≤ mem.length) :
    (cellAt (mkResized n O vs m mem).cells (mem.length - 2)).next = none := by
  rw [mkResized_cellAt n O vs m mem (by omega), mkResizedCell,
    if_neg (by omega), if_neg (by omega)]
  by_cases hc : mem.length - 2 ≤ n - 2
  · rw [if_pos hc, if_pos rfl]
  · rw [if_neg hc, if_pos rfl]

/-! ## The `lr_put`/`lr_push` identity -/

theorem lr_put_eq_push : lr_put = lr_push := rfl

theorem lr_push_iter_eq_put (O : Nat) : ∀ (ws : List Nat) (s : linked_ring),
    lr_push_iter O ws s = lr_put_iter O ws s
  | [], s => rfl
  | w :: ws, s => by
    show (match lr_push s w O with
      | some (LR_OK, s') => lr_push_iter O ws s'
      | _ => none) =
      (match lr_put s w O with
      | some (LR_OK, s') => lr_put_iter O ws s'
      | _ => none)
    rw [show lr_push s w O = lr_put s w O from
      (congrFun (congrFun (congrFun lr_put_eq_push s) w) O).symm]
    cases hput : lr_put s w O with
    | none => rfl
    | some r =>
      obtain ⟨r1, s'⟩ := r
      cases r1
      case LR_OK => exact lr_push_iter_eq_put O ws s'
      all_goals rfl

/-! ## Claim C1 -/

/-- C1 (counterexample): two `lr_push`es followed by two `lr_get`s return the
values in insertion order `[10, 20]`, not in the reverse order `[20, 10]`
that the claim's reverse-FIFO clause for pushes predicts. -/
theorem C1_push_get_not_reverse_fifo :
    ((lr_push_iter 1 [10, 20] (freshRing 4)).bind fun s =>
      (lr_get_iter 1 2 s).map fun r => r.1) = some [10, 20] ∧
    ([10, 20] : List Nat) ≠ [20, 10] := by decide

/-- C1 (amended): after a sequence of `lr_put`s for one owner into a fresh
arena, `lr_count_owned` reports the number of stored values, draining with
that many `lr_get`s returns them in FIFO order and draining with that many
`lr_pop`s in LIFO order; `lr_push` produces the identical states, so pushed
values also come out of `lr_get` in FIFO - not reverse-FIFO - order. -/
theorem C1_put_get_pop_order (n O : Nat) (vs : List Nat)
    (hn : 2 ≤ n) (h1 : 1 ≤ vs.length) (hk : vs.length ≤ n - 1) :
    ∀ s, lr_put_iter O vs (freshRing n) = some s →
      lr_push_iter O vs (freshRing n) = some s ∧
      lr_count_owned s O = some (vs.length, s) ∧
      (lr_get_iter O vs.length s).map (fun r => r.1) = some vs ∧
      (lr_pop_iter O vs.length s).map (fun r => r.1) = some vs.reverse := by
  intro s hs
  rw [lr_put_iter_fresh n O vs hn h1 hk] at hs
  have hse : s = mkPop n O vs vs.length := (Option.some.inj hs).symm
  subst hse
  refine ⟨?_, ?_, ?_, ?_⟩
  · rw [lr_push_iter_eq_put O vs]
    exact lr_put_iter_fresh n O vs hn h1 hk
  · exact lr_count_owned_mkPop n O vs vs.length hn (by omega) hk
  · rw [lr_get_iter_full n O vs hn h1 hk]
    rfl
  · rw [lr_pop_iter_full n O vs hn h1 hk]
    rfl

theorem C1_put_get_pop_order_witness :
    ((2 : Nat) ≤ 4 ∧ 1 ≤ ([10, 20] : List Nat).length ∧
      ([10, 20] : List Nat).length ≤ 4 - 1 ∧
      lr_put_iter 1 [10, 20] (freshRing 4) = some (mkPop 4 1 [10, 20] 2)) ∧
    ((lr_get_iter 1 ([10, 20] : List Nat).length
        (mkPop 4 1 [10, 20] 2)).map (fun r => r.1) = some [10, 20] ∧
      (lr_pop_iter 1 ([10, 20] : List Nat).length
        (mkPop 4 1 [10, 20] 2)).map (fun r => r.1) = some [20, 10]) :=
  ⟨⟨by decide, by decide, by decide, by decide⟩,
   (C1_put_get_pop_order 4 1 [10, 20] (by decide) (by decide) (by decide)
     (mkPop 4 1 [10, 20] 2) (by decide)).2.2⟩

/-! ## Claim C2 -/

/-- C2 (bug): on a fresh 4-cell arena the successful sequence
`put(10, owner 1); put(20, owner 2); pull(owner 1, index 0)` leaves a state
violating the conservation invariant.  `lr_pull`'s single-element removal
path, in its `lr->write == NULL` branch, points `write` at the freed owner
record without clearing that record's `next`, so the free chain runs into
owner 2's live data cell and cycles.  The invariant holds after each of the
two puts and is broken exactly by the pull, whose own result is `LR_OK`. -/
theorem C2_pull_breaks_conservation :
    ((lr_put (freshRing 4) 10 1).bind fun r1 =>
      (lr_put r1.2 20 2).bind fun r2 =>
        (lr_pull r2.2 1 0).map fun r3 =>
          (r1.1, spec_conserved r1.2, r2.1, spec_conserved r2.2,
           r3.1, spec_conserved r3.2.2)) =
      some (LR_OK, true, LR_OK, true, LR_OK, false) := by decide

/-! ## Claim C3 -/

/-- C3 (counterexample): on a full arena (no free cell) the resize's
free-list re-threading loop overwrites the link of the live cell at index
`data_nr - 1`, so the owner's data sequence is not preserved: before the
resize `lr_read_at(owner 1, 0)` returns `10`, afterwards it returns the `99`
of an uninitialized new cell that got spliced into the ring. -/
theorem C3_resize_full_arena_clobbers :
    ((lr_put_iter 1 [10, 20] (freshRing 3)).bind fun s =>
      (lr_read_at s 1 0).bind fun q0 =>
        (lr_resize s false (List.replicate 5 ⟨99, none⟩) 0).bind fun r =>
          (lr_read_at r.2 1 0).map fun q1 =>
            (q0.1, q0.2.1, r.1, q1.1, q1.2.1)) =
      some (LR_OK, some 10, LR_OK, LR_OK, some 99) ∧
    some (10 : Nat) ≠ some (99 : Nat) := by decide

/-- C3 (amended): for the single-owner state with at least one free cell and
a new array no smaller than the old one, `lr_resize` returns `LR_OK` with
the explicit resized state; every in-range read of owner `O` returns the
same value before and after the resize (the (owner, sequence) pair is
preserved), and the free list is re-threaded ascending from the write
position through all unused cells of the new array, ending in `NULL`. -/
theorem C3_resize_preserves (n O : Nat) (vs : List Nat) (m : Nat)
    (mem : List lr_cell) (ub : Nat)
    (hn : 2 ≤ n) (hm : 1 ≤ m) (hk : m ≤ n - 2) (hM : n ≤ mem.length) :
    lr_resize (mkPop n O vs m) false mem ub =
      some (LR_OK, mkResized n O vs m mem) ∧
    (∀ idx, idx < m →
      lr_read_at (mkPop n O vs m) O idx =
        some (LR_OK, some (vs.getD idx 0), mkPop n O vs m) ∧
      lr_read_at (mkResized n O vs m mem) O idx =
        some (LR_OK, some (vs.getD idx 0), mkResized n O vs m mem)) ∧
    (mkResized n O vs m mem).write = some (n - 2) ∧
    (∀ i, n - 2 ≤ i → i < mem.length - 2 →
      (cellAt (mkResized n O vs m mem).cells i).next = some (i + 1)) ∧
    (cellAt (mkResized n O vs m mem).cells (mem.length - 2)).next = none := by
  refine ⟨lr_resize_mkPop n O vs m mem ub hn hm hk hM, ?_, rfl,
    mkResized_free_chain n O vs m mem hk hM,
    mkResized_free_end n O vs m mem hn hk hM⟩
  intro idx hidx
  exact ⟨lr_read_at_mkPop_ok n O vs m idx hn hm (by omega) hidx,
    lr_read_at_mkResized_ok n O vs m mem idx hn hm hk hM hidx⟩

theorem C3_resize_preserves_witness :
    ((2 : Nat) ≤ 4 ∧ (4 : Nat) ≤ (List.replicate 6 lr_cell_zero).length) ∧
    lr_resize (mkPop 4 1 [10] 1) false (List.replicate 6 lr_cell_zero) 0 =
      some (LR_OK, mkResized 4 1 [10] 1 (List.replicate 6 lr_cell_zero)) :=
  ⟨⟨by decide, by decide⟩,
   (C3_resize_preserves 4 1 [10] 1 (List.replicate 6 lr_cell_zero) 0
     (by decide) (by decide) (by decide) (by decide)).1⟩

/-! ## Claim C4 -/

/-- C4 (counterexample): after `put(10, 1); put(20, 1)` on a fresh arena the
next `lr_read` for owner 1 returns `10`, the *old head* - not the freshly
put `20` - and the owner record's `next` points at cell 1, the cell holding
the new value `20`, not at the previous tail (cell 0 holding `10`). -/
theorem C4_put_appends_at_tail :
    ((lr_put_iter 1 [10, 20] (freshRing 4)).bind fun s =>
      (lr_read s 1).map fun r => (r.2.1, lr_owner_tail s.cells 3)) =
      some (some 10, some 1) ∧
    some (10 : Nat) ≠ some (20 : Nat) := by decide

/-- C4 (amended): a successful `lr_put` for an owner with a non-empty
sub-list makes the new cell the *tail*: the owner record's `next` now points
at the new cell, and the next `lr_read` for the owner still returns the old
head, not the new value. -/
theorem C4_put_tail_semantics (n O v : Nat) (vs : List Nat)
    (hn : 2 ≤ n) (h1 : 1 ≤ vs.length) (hk : vs.length ≤ n - 2) :
    lr_put (mkPop n O vs vs.length) v O =
      some (LR_OK, mkPop n O (vs ++ [v]) (vs.length + 1)) ∧
    lr_owner_tail (mkPop n O (vs ++ [v]) (vs.length + 1)).cells (n - 1) =
      some vs.length ∧
    lr_read (mkPop n O (vs ++ [v]) (vs.length + 1)) O =
      some (LR_OK, some (vs.getD 0 0),
        mkPop n O (vs ++ [v]) (vs.length + 1)) := by
  refine ⟨lr_put_step n O v vs hn h1 hk, ?_, ?_⟩
  · have h := mkPop_tail n O (vs ++ [v]) (vs.length + 1) hn (by omega)
      (by omega)
    simpa using h
  · have h := lr_read_mkPop n O (vs ++ [v]) (vs.length + 1) hn (by omega)
      (by omega)
    rwa [getD_append_lt vs v (by omega)] at h

theorem C4_put_tail_semantics_witness :
    lr_put (mkPop 4 1 [10] 1) 20 1 = some (LR_OK, mkPop 4 1 [10, 20] 2) ∧
    lr_owner_tail (mkPop 4 1 [10, 20] 2).cells 3 = some 1 ∧
    lr_read (mkPop 4 1 [10, 20] 2) 1 =
      some (LR_OK, some 10, mkPop 4 1 [10, 20] 2) :=
  C4_put_tail_semantics 4 1 20 [10] (by decide) (by decide) (by decide)

/-! ## Claim C5 -/

/-- C5 (bug): `lr_init` never writes the last cell's `next`.  On a 3-cell
array whose cells hold `{data 5, next → cell 7}` before the call, the init
reports `LR_OK` and chains the first two cells, but the last cell's `next`
still holds the stale link to cell 7 instead of the `NULL` the claim
requires; the free list is then not `NULL`-terminated. -/
theorem C5_init_leaves_last_link_stale :
    (lr_init false (List.replicate 3 ⟨5, some 7⟩)).1 = LR_OK ∧
    ((lr_init false (List.replicate 3 ⟨5, some 7⟩)).2.map fun s =>
      ((cellAt s.cells 0).next, (cellAt s.cells 1).next,
       (cellAt s.cells 2).next, s.write, s.owners)) =
      some (some 1, some 2, some 7, some 0, none) ∧
    some (7 : Nat) ≠ none := by decide

/-! ## Claim C6 -/

/-- C6 (bug): `lr_pop` invoked for an owner id with no owner record returns
`LR_ERROR_BUFFER_EMPTY` through a bare `return` that skips the unlock, so
the mutex stays held (lock depth 1).  The analogous `lr_get` path does
release the lock (depth back to 0). -/
theorem C6_pop_leaks_lock :
    ((lr_pop (lr_set_mutex (freshRing 3)) 1).map fun r =>
      (r.1, r.2.2.lockDepth)) = some (LR_ERROR_BUFFER_EMPTY, 1) ∧
    ((lr_get (lr_set_mutex (freshRing 3)) 1).map fun r =>
      (r.1, r.2.2.lockDepth)) = some (LR_ERROR_BUFFER_EMPTY, 0) := by decide

/-! ## Claim C7 -/

/-- C7 (counterexample): owner 1 holds two elements; `lr_pull` at the
out-of-range index 5 returns `LR_ERROR_BUFFER_EMPTY`, not the invalid-index
code the claim requires for an existing owner with an excessive index. -/
theorem C7_pull_out_of_range_says_empty :
    ((lr_put_iter 1 [10, 20] (freshRing 4)).bind fun s =>
      (lr_pull s 1 5).map fun r => r.1) = some LR_ERROR_BUFFER_EMPTY ∧
    LR_ERROR_BUFFER_EMPTY ≠ LR_ERROR_INVALID_INDEX := by decide

/-- C7 (amended): the removal operations report `BufferEmpty` when no owner
record exists, and `lr_read_at` reports `InvalidIndex` for an in-record
owner with an index at or past the sub-list length - but `lr_pull` reports
`BufferEmpty` (not `InvalidIndex`) in that same situation. -/
theorem C7_error_codes (n O : Nat) (vs : List Nat) (m idx P : Nat)
    (hn : 2 ≤ n) (hm : 2 ≤ m) (hk : m ≤ n - 1) (hP : P ≠ O) (hidx : m ≤ idx) :
    lr_get (mkPop n O vs m) P =
      some (LR_ERROR_BUFFER_EMPTY, none, mkPop n O vs m) ∧
    lr_pop (mkPop n O vs m) P =
      some (LR_ERROR_BUFFER_EMPTY, none, mkPop n O vs m) ∧
    lr_pull (mkPop n O vs m) P idx =
      some (LR_ERROR_BUFFER_EMPTY, none, mkPop n O vs m) ∧
    lr_read_at (mkPop n O vs m) O idx =
      some (LR_ERROR_INVALID_INDEX, none, mkPop n O vs m) ∧
    lr_pull (mkPop n O vs m) O idx =
      some (LR_ERROR_BUFFER_EMPTY, none, mkPop n O vs m) :=
  ⟨lr_get_mkPop_noOwner n O vs m P (by omega) (by omega) hP,
   lr_pop_mkPop_noOwner n O vs m P (by omega) (by omega) hP,
   lr_pull_mkPop_noOwner n O vs m idx P (by omega) (by omega) hP,
   lr_read_at_mkPop_invalid n O vs m idx hn (by omega) hk hidx,
   lr_pull_mkPop_outOfRange n O vs m idx hn hm hk hidx⟩

theorem C7_error_codes_witness :
    lr_get (mkPop 4 1 [10, 20] 2) 2 =
      some (LR_ERROR_BUFFER_EMPTY, none, mkPop 4 1 [10, 20] 2) ∧
    lr_pop (mkPop 4 1 [10, 20] 2) 2 =
      some (LR_ERROR_BUFFER_EMPTY, none, mkPop 4 1 [10, 20] 2) ∧
    lr_pull (mkPop 4 1 [10, 20] 2) 2 5 =
      some (LR_ERROR_BUFFER_EMPTY, none, mkPop 4 1 [10, 20] 2) ∧
    lr_read_at (mkPop 4 1 [10, 20] 2) 1 5 =
      some (LR_ERROR_INVALID_INDEX, none, mkPop 4 1 [10, 20] 2) ∧
    lr_pull (mkPop 4 1 [10, 20] 2) 1 5 =
      some (LR_ERROR_BUFFER_EMPTY, none, mkPop 4 1 [10, 20] 2) :=
  C7_error_codes 4 1 [10, 20] 2 5 2 (by decide) (by decide) (by decide)
    (by decide) (by decide)

/-! ## Claim C8 -/

/-- C8 (counterexample): the empty string contains no zero byte and fits in
any arena, yet the round trip fails: `lr_put_string` stores nothing and
returns `LR_OK`, and the following `lr_read_string` fails with
`LR_ERROR_BUFFER_EMPTY`, writing no bytes at all (no terminator, length
untouched) instead of the empty string. -/
theorem C8_empty_string_no_roundtrip :
    ((lr_put_string (freshRing 3) [] 1).bind fun r =>
      (lr_read_string r.2 1).map fun q => (r.1, q.1, q.2.1, q.2.2.1)) =
      some (LR_OK, LR_ERROR_BUFFER_EMPTY, [], 0) ∧
    LR_ERROR_BUFFER_EMPTY ≠ LR_OK := by decide

/-- C8 (amended): for a *non-empty* byte string without zero bytes that fits
in the arena, `lr_put_string` into a fresh arena followed by
`lr_read_string` yields exactly the bytes of the string in order,
zero-terminated, with the reported length equal to the string length. -/
theorem C8_string_roundtrip (n O : Nat) (s : List Nat)
    (hn : 2 ≤ n) (h1 : 1 ≤ s.length) (hk : s.length ≤ n - 1)
    (hz : ∀ b ∈ s, b ≠ 0) :
    ∀ st, lr_put_string (freshRing n) s O = some (LR_OK, st) →
      lr_read_string st O = some (LR_OK, s ++ [0], s.length, st) := by
  intro st hput
  rw [lr_put_string_fresh n O s hn h1 hk hz] at hput
  have hst : st = mkPop n O s s.length :=
    (congrArg Prod.snd (Option.some.inj hput)).symm
  subst hst
  have hz0 : s.getD 0 0 ≠ 0 := by
    cases s with
    | nil => simp at h1
    | cons b rest => exact hz b (by simp)
  exact lr_read_string_mkPop n O s hn h1 hk hz0

theorem C8_string_roundtrip_witness :
    lr_put_string (freshRing 3) [65] 1 = some (LR_OK, mkPop 3 1 [65] 1) ∧
    lr_read_string (mkPop 3 1 [65] 1) 1 =
      some (LR_OK, [65, 0], 1, mkPop 3 1 [65] 1) :=
  ⟨by decide,
   C8_string_roundtrip 3 1 [65] (by decide) (by decide) (by decide)
     (by decide) (mkPop 3 1 [65] 1) (by decide)⟩

/-! ## Claim C9 -/

/-- C9: `lr_put` and `lr_push` are the same function - the two C bodies
perform exactly the same steps - so they agree on every arena state, datum
and owner, in result code and in resulting state. -/
theorem C9_put_push_identical : lr_put = lr_push := lr_put_eq_push

/-! ## Claim C10 -/

/-- C10: with exactly one free cell left (the write cell, whose `next` is
`NULL`), an insertion for a brand-new owner id is refused with `BufferFull`
and the arena is unchanged (both via `lr_put` and `lr_push`), while an
insertion for the existing owner succeeds and consumes the last free cell
(the resulting state's write pointer is `NULL`). -/
theorem C10_last_cell_owner_policy (n O : Nat) (vs : List Nat) (v P : Nat)
    (hn : 3 ≤ n) (hvs : vs.length = n - 2) (hP : P ≠ O) :
    (mkPop n O vs (n - 2)).write = some (n - 2) ∧
    (cellAt (mkPop n O vs (n - 2)).cells (n - 2)).next = none ∧
    lr_put (mkPop n O vs (n - 2)) v P =
      some (LR_ERROR_BUFFER_FULL, mkPop n O vs (n - 2)) ∧
    lr_push (mkPop n O vs (n - 2)) v P =
      some (LR_ERROR_BUFFER_FULL, mkPop n O vs (n - 2)) ∧
    lr_put (mkPop n O vs (n - 2)) v O =
      some (LR_OK, mkPop n O (vs ++ [v]) (n - 1)) ∧
    (mkPop n O (vs ++ [v]) (n - 1)).write = none := by
  refine ⟨?_, ?_, lr_put_mkPop_newOwner_full n O vs v P hn hP, ?_, ?_, ?_⟩
  · show (if n - 2 < n - 1 then some (n - 2) else none) = some (n - 2)
    rw [if_pos (by omega)]
  · rw [mkPop_cellAt O vs (n - 2) (by omega), mkPopCell, if_neg (by omega),
      if_neg (by omega), if_pos rfl]
  · rw [← lr_put_eq_push]
    exact lr_put_mkPop_newOwner_full n O vs v P hn hP
  · have h := lr_put_step n O v vs (by omega) (by omega) (by omega)
    rw [hvs] at h
    rwa [show n - 2 + 1 = n - 1 from by omega] at h
  · show (if n - 1 < n - 1 then some (n - 1) else none) = none
    rw [if_neg (by omega)]

theorem C10_last_cell_owner_policy_witness :
    (mkPop 4 1 [7, 8] 2).write = some 2 ∧
    (cellAt (mkPop 4 1 [7, 8] 2).cells 2).next = none ∧
    lr_put (mkPop 4 1 [7, 8] 2) 9 2 =
      some (LR_ERROR_BUFFER_FULL, mkPop 4 1 [7, 8] 2) ∧
    lr_push (mkPop 4 1 [7, 8] 2) 9 2 =
      some (LR_ERROR_BUFFER_FULL, mkPop 4 1 [7, 8] 2) ∧
    lr_put (mkPop 4 1 [7, 8] 2) 9 1 =
      some (LR_OK, mkPop 4 1 [7, 8, 9] 3) ∧
    (mkPop 4 1 [7, 8, 9] 3).write = none :=
  C10_last_cell_owner_policy 4 1 [7, 8] 9 2 (by decide) (by decide)
    (by decide)
